import Mathlib

/-!
Verification development for the mpv-music indexing and query engine.

The definitions below are a shallow embedding of the Rust sources
`src/indexer.rs` and `src/main.rs`:

* strings are modelled on `List Char` / `String`, with ASCII case folding
  standing in for Rust's `str::to_lowercase` and ASCII whitespace for
  `str::trim`'s whitespace class (all behaviour exercised by the
  specification is ASCII);
* the filesystem walk is modelled as an environment-supplied enumeration
  of `FsEntry` records (one per directory entry, carrying the metadata the
  Rust code reads from the walk);
* the external tag-reading capability (the `lofty` probe) is an
  environment-supplied function `String → Option TagData`, `none`
  covering both probe failure and "no tags found" (the Rust code treats
  the two identically);
* the persisted store is modelled at the granularity the Rust code reads
  it: a list of text lines, with the `serde_json` line format implemented
  concretely (object with exactly the eight `Track` fields, arbitrary
  member order, rejected on duplicate or missing fields, whitespace
  tolerated between tokens).
-/

namespace MpvMusic

/-! ### Character / string primitives (models of the Rust `str` API) -/

/-- ASCII lower-casing of one character; models Rust `char::to_lowercase`
on the ASCII range (the only range the spec exercises). -/
def lowChar (c : Char) : Char :=
  if 65 ≤ c.toNat ∧ c.toNat ≤ 90 then Char.ofNat (c.toNat + 32) else c

/-- Lower-case a character list. -/
def lower (l : List Char) : List Char := l.map lowChar

/-- Models Rust `str::to_lowercase` (ASCII). -/
def lowerS (s : String) : String := ⟨lower s.data⟩

/-- Drop leading whitespace. -/
def trimL (l : List Char) : List Char := l.dropWhile Char.isWhitespace

/-- Drop trailing whitespace. -/
def trimR (l : List Char) : List Char := (l.reverse.dropWhile Char.isWhitespace).reverse

/-- Models Rust `str::trim`. -/
def trimChars (l : List Char) : List Char := trimR (trimL l)

/-- Models Rust `str::trim` on `String`. -/
def trimS (s : String) : String := ⟨trimChars s.data⟩

/-- Split a character list at every character satisfying `p`; models Rust
`str::split` (which yields empty segments between adjacent separators and
at the ends). The result is always non-empty. -/
def splitP (p : Char → Bool) : List Char → List (List Char)
  | [] => [[]]
  | c :: cs =>
    match splitP p cs with
    | [] => [[]]
    | g :: gs => if p c then [] :: g :: gs else (c :: g) :: gs

/-- Models Rust `str::split` on `String`. -/
def splitS (p : Char → Bool) (s : String) : List String :=
  (splitP p s.data).map (fun l => ⟨l⟩)

/-- Does `hay` start with `needle`? Models `str::starts_with`. -/
def startsWithSeg : List Char → List Char → Bool
  | [], _ => true
  | _ :: _, [] => false
  | a :: as, b :: bs => a == b && startsWithSeg as bs

/-- Does `hay` contain `needle` as a contiguous segment? Models Rust
`str::contains` with a string pattern. -/
def containsSeg (hay needle : List Char) : Bool :=
  startsWithSeg needle hay ||
    match hay with
    | [] => false
    | _ :: t => containsSeg t needle

/-- Models Rust `str::contains` on `String`. -/
def containsS (s pat : String) : Bool := containsSeg s.data pat.data

/-- Propositional statement that `needle` occurs contiguously inside
`hay`; the specification's notion of "substring". -/
def isSegmentOf (needle hay : List Char) : Prop :=
  ∃ l r, hay = l ++ needle ++ r

/-- Byte-lexicographic comparison used by Rust's `Vec::sort` on strings
(UTF-8 byte order coincides with scalar-value order). -/
def leChars : List Char → List Char → Bool
  | [], _ => true
  | _ :: _, [] => false
  | a :: as, b :: bs =>
    if a.toNat < b.toNat then true
    else if a.toNat = b.toNat then leChars as bs
    else false

/-- Insert into a sorted list of strings. -/
def insertSorted (s : String) : List String → List String
  | [] => [s]
  | t :: ts => if leChars s.data t.data then s :: t :: ts else t :: insertSorted s ts

/-- Sort a list of strings; models `options_vec.sort()` in `main.rs`. -/
def sortStrs : List String → List String
  | [] => []
  | s :: ss => insertSorted s (sortStrs ss)

/-! ### Data model (`src/indexer.rs`) -/

/-- The persisted record type, `struct Track` of `src/indexer.rs`. -/
structure Track where
  path : String
  title : String
  artist : String
  album : String
  genre : String
  mtime : Nat
  size : Nat
  media_type : String
deriving DecidableEq

/-- Configuration inputs consumed by `indexer::scan`
(`src/config.rs`: `music_dirs`, extension lists, `video_ok`). -/
structure Config where
  music_dirs : List String
  audio_exts : List String
  video_exts : List String
  playlist_exts : List String
  video_ok : Bool
deriving DecidableEq

/-- One directory-walk entry, carrying exactly the data the Rust scan
loop reads from it: `path.is_file()`, `path.extension()`,
`path.file_stem()` and `entry.metadata()` (already reduced to the
`(mtime, size)` pair the code extracts; `meta = none` models a failed
`metadata()` call, which skips the file). -/
structure FsEntry where
  path : String
  isFile : Bool
  ext : Option String
  stem : Option String
  meta : Option (Nat × Nat)
deriving DecidableEq

/-- Result of the external tag probe: the four tag accessors of the
chosen tag, each `Option` (`lofty` `tag.title()` etc.). A probe failure
or a file with no tags is `none` at the outer level. -/
structure TagData where
  title : Option String
  artist : Option String
  album : Option String
  genre : Option String
deriving DecidableEq

/-- `to_set` of `src/indexer.rs` lines 29-31: trim and lower-case each
configured extension. The Rust `HashSet` is modelled as a list queried by
membership. -/
def to_set (exts : List String) : List String :=
  exts.map (fun s => lowerS (trimS s))

/-- The extension classification of `src/indexer.rs` lines 90-101:
lower-case the extension, check the audio set, then the playlist set,
then (only if `video_ok`) the video set; otherwise the file is skipped. -/
def classifyExt (cfg : Config) (ext : String) : Option String :=
  let e := lowerS ext
  if (to_set cfg.audio_exts).contains e then some "audio"
  else if (to_set cfg.playlist_exts).contains e then some "playlist"
  else if cfg.video_ok && (to_set cfg.video_exts).contains e then some "video"
  else none

/-- Whether a walk entry has an extension that classifies to a media
type. -/
def entryClassifies (cfg : Config) (e : FsEntry) : Bool :=
  match e.ext with
  | some x => (classifyExt cfg x).isSome
  | none => false

/-- Lookup in the old-snapshot map (`old_cache.get(&path_str)` on the
`HashMap` built at lines 47-54 of `src/indexer.rs`). `HashMap` collection
from an iterator keeps the last entry for a duplicated key, hence the
reversed search. -/
def cacheLookup (old : List Track) (p : String) : Option Track :=
  old.reverse.find? (fun t => t.path == p)

/-- The cache-hit test of `src/indexer.rs` lines 116-121: an old entry
for this path with both `mtime` and `size` unchanged. -/
def cacheHitTrack (old : List Track) (p : String) (mtime size : Nat) : Option Track :=
  match cacheLookup old p with
  | some t => if t.mtime = mtime ∧ t.size = size then some t else none
  | none => none

/-- The tail of the per-file pipeline, `src/indexer.rs` lines 160-183:
apply the fallback rules to the four tag fields and build the `Track`.
An empty title falls back to `path.file_stem()?` — if the stem is absent
the `?` drops the file. -/
def finishTrack (e : FsEntry) (mtime size : Nat)
    (media_type title artist album genre : String) : Option Track :=
  match (if title = "" then e.stem else some title) with
  | none => none
  | some t1 =>
    some { path := e.path, title := t1,
           artist := if artist = "" then "UNKNOWN" else artist,
           album := if album = "" then "UNKNOWN" else album,
           genre := if genre = "" then "UNKNOWN" else genre,
           mtime := mtime, size := size, media_type := media_type }

/-- The per-file body of the scan loop, `src/indexer.rs` lines 81-183.
Returns the emitted track (if any) and whether the tag probe was
invoked for this entry. -/
def processEntry (cfg : Config) (oldCache : List Track)
    (probe : String → Option TagData) (e : FsEntry) : Option Track × Bool :=
  if e.isFile = false then (none, false)
  else
    match e.ext with
    | none => (none, false)
    | some ext0 =>
      match classifyExt cfg ext0 with
      | none => (none, false)
      | some media_type =>
        match e.meta with
        | none => (none, false)
        | some ms =>
          match cacheHitTrack oldCache e.path ms.1 ms.2 with
          | some old => (some old, false)
          | none =>
            if media_type = "playlist" then
              (finishTrack e ms.1 ms.2 media_type (e.stem.getD "")
                 "Playlist" "Playlists" "Playlist", false)
            else
              match probe e.path with
              | some td =>
                (finishTrack e ms.1 ms.2 media_type (td.title.getD "")
                   (td.artist.getD "") (td.album.getD "") (td.genre.getD ""), true)
              | none =>
                (finishTrack e ms.1 ms.2 media_type "" "" "" "", true)

/-- Scan over an already-enumerated list of walk entries. -/
def scanEntries (cfg : Config) (old : List Track)
    (probe : String → Option TagData) (entries : List FsEntry) :
    List (Option Track × Bool) :=
  entries.map (processEntry cfg old probe)

/-- The tracks a scan emits, in walk order (`filter_map ... collect`). -/
def scanTracks (cfg : Config) (old : List Track)
    (probe : String → Option TagData) (entries : List FsEntry) : List Track :=
  (scanEntries cfg old probe entries).filterMap Prod.fst

/-- How many entries invoked the tag probe during the scan. -/
def probeCount (cfg : Config) (old : List Track)
    (probe : String → Option TagData) (entries : List FsEntry) : Nat :=
  ((scanEntries cfg old probe entries).filter Prod.snd).length

/-- The whole-scan track collection, `src/indexer.rs` lines 72-184: the
walk of every configured music directory (`flat_map` over
`config.music_dirs`, here an environment-supplied `walk`), piped through
the per-file pipeline. -/
def scanConfig (cfg : Config) (walk : String → List FsEntry)
    (old : List Track) (probe : String → Option TagData) : List Track :=
  scanTracks cfg old probe (cfg.music_dirs.flatMap walk)

/-! ### Persisted line format (`serde_json` one-object-per-line) -/

/-- Decimal digit character. -/
def digChar (d : Nat) : Char := Char.ofNat (48 + d)

/-- Lower-case hex digit character (`serde_json` emits lower-case hex in
`\u00XX` escapes). -/
def hexDig (d : Nat) : Char :=
  if d < 10 then Char.ofNat (48 + d) else Char.ofNat (87 + d)

/-- Decimal digits of `n`, most significant first. -/
def natChars (n : Nat) : List Char :=
  if _h : n < 10 then [digChar n] else natChars (n / 10) ++ [digChar (n % 10)]
decreasing_by exact Nat.div_lt_self (by omega) (by omega)

/-- JSON string escaping of one character, exactly as `serde_json`
emits it: the two-character escapes for `"` `\` and the five control
shorthands, `\u00XX` for the remaining control characters, everything
else raw. -/
def escChar (c : Char) : List Char :=
  if c = '"' then ['\\', '"']
  else if c = '\\' then ['\\', '\\']
  else if c = '\n' then ['\\', 'n']
  else if c = '\r' then ['\\', 'r']
  else if c = '\t' then ['\\', 't']
  else if c.toNat = 8 then ['\\', 'b']
  else if c.toNat = 12 then ['\\', 'f']
  else if c.toNat < 32 then ['\\', 'u', '0', '0', hexDig (c.toNat / 16), hexDig (c.toNat % 16)]
  else [c]

/-- JSON string escaping of a character list. -/
def escStr : List Char → List Char
  | [] => []
  | c :: cs => escChar c ++ escStr cs

/-- Serialize a JSON string literal, continuation style. -/
def serStrInto (s : String) (rest : List Char) : List Char :=
  '"' :: (escStr s.data ++ '"' :: rest)

/-- Serialize a JSON number (unsigned integer), continuation style. -/
def serNatInto (n : Nat) (rest : List Char) : List Char :=
  natChars n ++ rest

/-- The one-line `serde_json` serialization of a `Track` (`save` of
`src/indexer.rs` lines 216-219): the eight fields in declaration order,
no interior whitespace. -/
def serTrackChars (t : Track) : List Char :=
  '{' :: serStrInto "path" (':' :: serStrInto t.path (',' ::
    serStrInto "title" (':' :: serStrInto t.title (',' ::
      serStrInto "artist" (':' :: serStrInto t.artist (',' ::
        serStrInto "album" (':' :: serStrInto t.album (',' ::
          serStrInto "genre" (':' :: serStrInto t.genre (',' ::
            serStrInto "mtime" (':' :: serNatInto t.mtime (',' ::
              serStrInto "size" (':' :: serNatInto t.size (',' ::
                serStrInto "media_type" (':' :: serStrInto t.media_type ['}'])))))))))))))))

/-- One persisted line. -/
def serLine (t : Track) : String := ⟨serTrackChars t⟩

/-- The lines `save` writes (one per track, `src/indexer.rs` 216-219). -/
def saveLines (ts : List Track) : List String := ts.map serLine

/-- Skip JSON whitespace. -/
def skipWs : List Char → List Char
  | [] => []
  | c :: cs => if c.isWhitespace then skipWs cs else c :: cs

/-- Hex digit value (both cases accepted, as in JSON). -/
def hexVal (c : Char) : Option Nat :=
  if 48 ≤ c.toNat ∧ c.toNat ≤ 57 then some (c.toNat - 48)
  else if 97 ≤ c.toNat ∧ c.toNat ≤ 102 then some (c.toNat - 87)
  else if 65 ≤ c.toNat ∧ c.toNat ≤ 70 then some (c.toNat - 55)
  else none

/-- Decode a two-character JSON escape. -/
def unescChar (c : Char) : Option Char :=
  if c = '"' then some '"'
  else if c = '\\' then some '\\'
  else if c = '/' then some '/'
  else if c = 'b' then some (Char.ofNat 8)
  else if c = 'f' then some (Char.ofNat 12)
  else if c = 'n' then some '\n'
  else if c = 'r' then some '\r'
  else if c = 't' then some '\t'
  else none

/-- Decode a `\uXXXX` escape: four hex digits whose value must be a
Unicode scalar value. -/
def hex4 : List Char → Option (Char × List Char)
  | h1 :: h2 :: h3 :: h4 :: rest3 =>
    match hexVal h1, hexVal h2, hexVal h3, hexVal h4 with
    | some a, some b, some c2, some d =>
      let n := ((a * 16 + b) * 16 + c2) * 16 + d
      if n < 55296 ∨ (57343 < n ∧ n < 65536) then some (Char.ofNat n, rest3)
      else none
    | _, _, _, _ => none
  | _ => none

/-- Decode the escape following a backslash: a `\uXXXX` escape or one of
the two-character escapes; anything else is an error. -/
def escDecode : List Char → Option (Char × List Char)
  | [] => none
  | e :: rest2 =>
    if e = 'u' then hex4 rest2
    else
      match unescChar e with
      | some uc => some (uc, rest2)
      | none => none

/-- Fuel-bounded loop of the JSON string-literal body parser (the
opening quote already consumed): raw characters and escapes up to the
closing quote; raw control characters are rejected. Every iteration
consumes at least one character, so fuel equal to the input length
always suffices. -/
def parseStrGo : Nat → List Char → Option (List Char × List Char)
  | 0, _ => none
  | fuel + 1, cs =>
    match cs with
    | [] => none
    | c :: rest =>
      if c = '"' then some ([], rest)
      else if c = '\\' then
        match escDecode rest with
        | some p =>
          match parseStrGo fuel p.2 with
          | some (s, r) => some (p.1 :: s, r)
          | none => none
        | none => none
      else if c.toNat < 32 then none
      else
        match parseStrGo fuel rest with
        | some (s, r) => some (c :: s, r)
        | none => none

/-- Parse the body of a JSON string literal. -/
def parseStrBody (cs : List Char) : Option (List Char × List Char) :=
  parseStrGo cs.length cs

/-- Parse a JSON string token (leading whitespace allowed). -/
def parseStrTok (cs : List Char) : Option (String × List Char) :=
  match skipWs cs with
  | c :: rest =>
    if c = '"' then
      match parseStrBody rest with
      | some (s, r) => some (⟨s⟩, r)
      | none => none
    else none
  | [] => none

/-- Decimal digit test written on code points (behaviourally
`Char.isDigit`). -/
def isDigitCh (c : Char) : Bool := decide (48 ≤ c.toNat ∧ c.toNat ≤ 57)

/-- Consume a run of digits left to right. -/
def parseNatGo : Nat → List Char → Nat × List Char
  | acc, [] => (acc, [])
  | acc, c :: rest =>
    if isDigitCh c then parseNatGo (acc * 10 + (c.toNat - 48)) rest else (acc, c :: rest)

/-- Parse a JSON unsigned integer (no leading zeros, per the JSON number
grammar restricted to the unsigned integers a `u64` field accepts). -/
def parseNatVal : List Char → Option (Nat × List Char)
  | [] => none
  | c :: rest =>
    if c = '0' then
      if rest.head?.any isDigitCh then none else some (0, rest)
    else if isDigitCh c then some (parseNatGo (c.toNat - 48) rest)
    else none

/-- Parse a JSON number token (leading whitespace allowed). -/
def parseNatTok (cs : List Char) : Option (Nat × List Char) :=
  parseNatVal (skipWs cs)

/-- Expect one punctuation character (leading whitespace allowed). -/
def expectChar (c : Char) (cs : List Char) : Option (List Char) :=
  match skipWs cs with
  | d :: rest => if d = c then some rest else none
  | [] => none

/-- Partially decoded `Track` while object members are being read. -/
structure PartT where
  pathF : Option String := none
  titleF : Option String := none
  artistF : Option String := none
  albumF : Option String := none
  genreF : Option String := none
  mtimeF : Option Nat := none
  sizeF : Option Nat := none
  mediaF : Option String := none

/-- Dispatch one object member by key: parse the value with the field's
type and record it; a duplicated or unknown key is an error (serde
rejects duplicate fields; the persisted schema has exactly these
eight). -/
def setField (p : PartT) (key : String) (cs : List Char) : Option (PartT × List Char) :=
  if key = "path" then
    match p.pathF with
    | some _ => none
    | none =>
      match parseStrTok cs with
      | some (s, r) => some ({ p with pathF := some s }, r)
      | none => none
  else if key = "title" then
    match p.titleF with
    | some _ => none
    | none =>
      match parseStrTok cs with
      | some (s, r) => some ({ p with titleF := some s }, r)
      | none => none
  else if key = "artist" then
    match p.artistF with
    | some _ => none
    | none =>
      match parseStrTok cs with
      | some (s, r) => some ({ p with artistF := some s }, r)
      | none => none
  else if key = "album" then
    match p.albumF with
    | some _ => none
    | none =>
      match parseStrTok cs with
      | some (s, r) => some ({ p with albumF := some s }, r)
      | none => none
  else if key = "genre" then
    match p.genreF with
    | some _ => none
    | none =>
      match parseStrTok cs with
      | some (s, r) => some ({ p with genreF := some s }, r)
      | none => none
  else if key = "mtime" then
    match p.mtimeF with
    | some _ => none
    | none =>
      match parseNatTok cs with
      | some (n, r) => some ({ p with mtimeF := some n }, r)
      | none => none
  else if key = "size" then
    match p.sizeF with
    | some _ => none
    | none =>
      match parseNatTok cs with
      | some (n, r) => some ({ p with sizeF := some n }, r)
      | none => none
  else if key = "media_type" then
    match p.mediaF with
    | some _ => none
    | none =>
      match parseStrTok cs with
      | some (s, r) => some ({ p with mediaF := some s }, r)
      | none => none
  else none

/-- Parse the members of the track object. Since every member must bind
one of the eight distinct keys (duplicates are errors), at most eight
iterations can succeed, so the fuel `8` of the top-level call is
exact. -/
def parseMembers : Nat → PartT → List Char → Option (PartT × List Char)
  | 0, _, _ => none
  | Nat.succ fuel, p, cs =>
    match parseStrTok cs with
    | none => none
    | some (key, cs1) =>
      match expectChar ':' cs1 with
      | none => none
      | some cs2 =>
        match setField p key cs2 with
        | none => none
        | some (p2, cs3) =>
          match skipWs cs3 with
          | d :: rest =>
            if d = ',' then parseMembers fuel p2 rest
            else if d = '}' then some (p2, rest)
            else none
          | [] => none

/-- Require all eight fields and build the `Track` (serde errors on a
missing field). -/
def buildTrack (p : PartT) : Option Track :=
  match p.pathF, p.titleF, p.artistF, p.albumF, p.genreF, p.mtimeF, p.sizeF, p.mediaF with
  | some pa, some ti, some ar, some al, some ge, some mt, some sz, some me =>
    some { path := pa, title := ti, artist := ar, album := al, genre := ge,
           mtime := mt, size := sz, media_type := me }
  | _, _, _, _, _, _, _, _ => none

/-- Parse one persisted line into a `Track`; models
`serde_json::from_str::<Track>` on the persisted schema. Trailing
content other than whitespace is an error, as in `from_str`. -/
def parseTrackChars (cs : List Char) : Option Track :=
  match skipWs cs with
  | c :: rest =>
    if c = '{' then
      match parseMembers 8 {} rest with
      | some (p, rest2) => if skipWs rest2 = [] then buildTrack p else none
      | none => none
    else none
  | [] => none

/-- String-level entry point of the line parser. -/
def parseTrack (s : String) : Option Track := parseTrackChars s.data

/-- Rust `l.trim().is_empty()`: the line is entirely whitespace. -/
def isBlankLine (l : String) : Bool := l.data.all Char.isWhitespace

/-- The line loop of `load_index` (`src/indexer.rs` lines 243-261):
skip blank lines, parse each remaining line independently, drop lines
that fail to parse while raising the repair flag. -/
def loadLines : List String → List Track × Bool
  | [] => ([], false)
  | l :: ls =>
    if isBlankLine l then loadLines ls
    else
      match parseTrack l with
      | some t => (t :: (loadLines ls).1, (loadLines ls).2)
      | none => ((loadLines ls).1, true)

/-- `load_index` including the repair rewrite (`src/indexer.rs` lines
226-270): returns the load result together with the store's line
content after the call (rewritten with the survivors when any line was
corrupt, untouched otherwise). -/
def load_index (ls : List String) : (List Track × Bool) × List String :=
  let r := loadLines ls
  if r.2 then (r, saveLines r.1) else (r, ls)

/-! ### Query resolution (`src/main.rs`) -/

/-- The four tag filters of the command line after the empty-flag
dispatch: each is absent or carries a value (`args.genre` etc. at the
point of `main.rs` line 681). -/
structure Args where
  genre : Option String
  artist : Option String
  album : Option String
  title : Option String
deriving DecidableEq

/-- `prepare_terms` of `apply_cli_filters` (`src/main.rs` lines
1181-1189): lower-case the value, split on `','`, trim each piece, drop
empty pieces. -/
def prepareTerms (arg : Option String) : Option (List String) :=
  arg.map (fun v => ((splitS (fun c => c == ',') (lowerS v)).map trimS).filter (fun s => s ≠ ""))

/-- The per-field closure `matches` of `apply_cli_filters` (`src/main.rs`
lines 1203-1223): an absent filter always succeeds; otherwise in exact
mode some term must equal some trimmed sub-value of the lower-cased
field split on `';'`/`','`, and in partial mode some term must be a
substring of the lower-cased field. -/
def fieldMatches (exact : Bool) (field : String) (terms : Option (List String)) : Bool :=
  match terms with
  | none => true
  | some search_vals =>
    let field_lower := lowerS field
    if exact then
      search_vals.any (fun term =>
        ((splitS (fun c => c == ';' || c == ',') field_lower).map trimS).any
          (fun tag => tag == term))
    else
      search_vals.any (fun term => containsS field_lower term)

/-- `apply_cli_filters` (`src/main.rs` lines 1179-1234). Note the title
filter: the whole value is lower-cased and used as one substring
pattern, with no comma splitting and no exact mode. -/
def applyCliFilters (tracks : List Track) (args : Args) (exact : Bool) : List Track :=
  let genre_terms := prepareTerms args.genre
  let artist_terms := prepareTerms args.artist
  let album_terms := prepareTerms args.album
  let title_term := args.title.map lowerS
  tracks.filter (fun t =>
    fieldMatches exact t.genre genre_terms &&
    fieldMatches exact t.artist artist_terms &&
    fieldMatches exact t.album album_terms &&
    (match title_term with
     | none => true
     | some ti => containsS (lowerS t.title) ti))

/-- Does an optional filter value contain a comma? -/
def optContainsComma (o : Option String) : Bool :=
  match o with
  | some s => s.data.contains ','
  | none => false

/-- `is_multi_value_search` (`src/main.rs` lines 683-697): any of the
artist, genre or album values contains a `','`. -/
def isMultiValueSearch (args : Args) : Bool :=
  optContainsComma args.artist || optContainsComma args.genre || optContainsComma args.album

/-- The `active_key` selection (`src/main.rs` lines 718-725): the first
active filter in the order artist, genre, album; empty if none. -/
def activeKey (args : Args) : String :=
  if args.artist.isSome then "artist"
  else if args.genre.isSome then "genre"
  else if args.album.isSome then "album"
  else ""

/-- The distinct values of the active category over the partial-match
set (`unique_options`, `src/main.rs` lines 727-740; the `HashSet` is
modelled as first-occurrence deduplication). -/
def uniqueOptions (key : String) (partials : List Track) : List String :=
  if key = "artist" then (partials.map (fun t => t.artist)).dedup
  else if key = "genre" then (partials.map (fun t => t.genre)).dedup
  else if key = "album" then (partials.map (fun t => t.album)).dedup
  else []

/-- Overwrite the active filter with the clarified value
(`src/main.rs` lines 752-758). -/
def setKey (args : Args) (key : String) (v : String) : Args :=
  if key = "artist" then { args with artist := some v }
  else if key = "genre" then { args with genre := some v }
  else if key = "album" then { args with album := some v }
  else args

/-- Terminal result of the filter flow. -/
inductive Outcome where
  | noMatch : Outcome
  | aborted : Outcome
  | results : List Track → Outcome
deriving DecidableEq

/-- Result of a query resolution run, together with whether Pass 1 was
attempted and whether the external selection was invoked. -/
structure ResolveTrace where
  outcome : Outcome
  exactAttempted : Bool
  selectionInvoked : Bool
deriving DecidableEq

/-- The search-and-filter flow of `main` (`src/main.rs` lines 681-786):
Pass 1 (exact) unless multi-value, Pass 2 (partial) when Pass 1 was
skipped or empty, ambiguity clarification through the external
selection capability `select`, abort propagation. `select` receives the
sorted distinct values and returns the chosen one or `none` for a user
abort (`run_skim_simple`). -/
def resolveQuery (tracks : List Track) (args : Args)
    (select : List String → Option String) : ResolveTrace :=
  let is_multi := isMultiValueSearch args
  let filtered := if is_multi = false then applyCliFilters tracks args true else []
  if filtered = [] then
    let partials := applyCliFilters tracks args false
    if partials = [] then
      { outcome := .noMatch, exactAttempted := !is_multi, selectionInvoked := false }
    else
      let key := activeKey args
      let opts := uniqueOptions key partials
      if 1 < opts.length ∧ key ≠ "" ∧ is_multi = false then
        match select (sortStrs opts) with
        | some clarified =>
          let filtered2 := applyCliFilters tracks (setKey args key clarified) true
          { outcome := if filtered2 = [] then .noMatch else .results filtered2,
            exactAttempted := !is_multi, selectionInvoked := true }
        | none =>
          { outcome := .aborted, exactAttempted := !is_multi, selectionInvoked := true }
      else
        { outcome := .results partials, exactAttempted := !is_multi, selectionInvoked := false }
  else
    { outcome := .results filtered, exactAttempted := !is_multi, selectionInvoked := false }

/-! ### Specification-side predicates (the claims' wording) -/

/-- The requested terms of a filter value, as the spec words it: the
comma-separated pieces, trimmed, empty pieces not counting as terms. -/
def specTermsOf (v : String) : List String :=
  ((splitS (fun c => c == ',') v).map trimS).filter (fun s => s ≠ "")

/-- The sub-values of a tag field: the field text split on `';'` or
`','`. -/
def specSubValues (field : String) : List String :=
  splitS (fun c => c == ';' || c == ',') field

/-- Case-insensitive string equality. -/
def eqCI (a b : String) : Prop := lowerS a = lowerS b

/-- Spec wording of an exact-pass field filter: absent, or some
requested term equals (case-insensitively, after trimming) some
sub-value of the field. -/
def specFieldExact : Option String → String → Prop
  | none, _ => True
  | some v, field => ∃ term ∈ specTermsOf v, ∃ sub ∈ specSubValues field, eqCI (trimS sub) term

/-- Spec wording of a partial-pass field filter: absent, or some
requested term is a case-insensitive substring of the raw field text. -/
def specFieldSubstr : Option String → String → Prop
  | none, _ => True
  | some v, field => ∃ term ∈ specTermsOf v, isSegmentOf (lowerS term).data (lowerS field).data

/-! ### Concrete fixtures for witnesses and counterexamples -/

/-- A configuration with `mp3` audio files only. -/
def cfgMp3 : Config :=
  { music_dirs := ["/m"], audio_exts := ["mp3"], video_exts := [],
    playlist_exts := ["m3u"], video_ok := false }

/-- A configuration whose music directories are nested. -/
def cfgNested : Config :=
  { music_dirs := ["/a", "/a/b"], audio_exts := ["mp3"], video_exts := [],
    playlist_exts := [], video_ok := false }

/-- A probe that finds no tags. -/
def probeNone : String → Option TagData := fun _ => none

/-- A selection capability the user always aborts. -/
def selectAbort : List String → Option String := fun _ => none

/-- The one file under the nested directories. -/
def entryNested : FsEntry :=
  { path := "/a/b/x.mp3", isFile := true, ext := some "mp3",
    stem := some "x", meta := some (1, 2) }

/-- A walk in which both configured directories reach the same file. -/
def walkNested : String → List FsEntry := fun _ => [entryNested]

/-- A cached track and its unchanged walk entry. -/
def trackHit : Track :=
  { path := "/m/a.mp3", title := "t", artist := "A", album := "B",
    genre := "Pop", mtime := 100, size := 2000, media_type := "audio" }

/-- Walk entry with the same path, mtime and size as `trackHit`. -/
def entryHit : FsEntry :=
  { path := "/m/a.mp3", isFile := true, ext := some "mp3",
    stem := some "a", meta := some (100, 2000) }

/-- A track with a multi-valued genre tag, for the exact/partial
semantics scenario. -/
def trackPR : Track :=
  { path := "/m/p.mp3", title := "t", artist := "A", album := "B",
    genre := "Pop;Rock", mtime := 1, size := 2, media_type := "audio" }

/-- Genre query `rock`. -/
def qRock : Args := { genre := some "rock", artist := none, album := none, title := none }

/-- Genre query `ro`. -/
def qRo : Args := { genre := some "ro", artist := none, album := none, title := none }

/-- Genre query `rock,` — one term, but a comma in the raw value. -/
def qRockComma : Args := { genre := some "rock,", artist := none, album := none, title := none }

/-- A track titled `alpha`. -/
def trackAlpha : Track :=
  { path := "/m/al.mp3", title := "alpha", artist := "A", album := "B",
    genre := "G", mtime := 1, size := 2, media_type := "audio" }

/-- Title query `alpha,beta`. -/
def qTitleList : Args := { genre := none, artist := none, album := none, title := some "alpha,beta" }

/-- Tracks by the artists `Ado` and `Adoration`, both genre `J`. -/
def trackAdo : Track :=
  { path := "/m/1.mp3", title := "s1", artist := "Ado", album := "X",
    genre := "J", mtime := 1, size := 2, media_type := "audio" }

/-- Second ambiguity-fixture track. -/
def trackAdoration : Track :=
  { path := "/m/2.mp3", title := "s2", artist := "Adoration", album := "Y",
    genre := "J", mtime := 3, size := 4, media_type := "audio" }

/-- Query with both artist and genre active (two active categories); the
term `ad` is a strict substring of both artists, so the exact pass finds
nothing and the partial pass matches both tracks. -/
def qTwoActive : Args := { genre := some "j", artist := some "ad", album := none, title := none }

/-- Single-category ambiguous artist query. -/
def qAdo : Args := { genre := none, artist := some "ad", album := none, title := none }

/-- A new untagged file for the fresh-build scenario. -/
def entryFresh : FsEntry :=
  { path := "/m/n.mp3", isFile := true, ext := some "mp3",
    stem := some "n", meta := some (5, 6) }

/-- The track the scan builds for `entryFresh` when the probe finds no
tags: stem title, `UNKNOWN` sentinels. -/
def trackFresh : Track :=
  { path := "/m/n.mp3", title := "n", artist := "UNKNOWN", album := "UNKNOWN",
    genre := "UNKNOWN", mtime := 5, size := 6, media_type := "audio" }

/-- A walk over distinct paths (for the amended uniqueness witness). -/
def walkSingle : String → List FsEntry := fun _ => [entryHit]

/-! ## Supporting lemmas

Character-level facts about the ASCII case-folding model. -/

lemma char_eq_iff_toNat {a b : Char} : a = b ↔ a.toNat = b.toNat :=
  ⟨fun h => by rw [h], fun h => Char.ext (UInt32.ext h)⟩

lemma charToNat_ofNat {n : Nat} (h : n < 55296) : (Char.ofNat n).toNat = n := by
  unfold Char.ofNat
  rw [dif_pos (Or.inl h)]
  show (UInt32.ofNat' n _).toNat = n
  simp [UInt32.ofNat', UInt32.toNat, BitVec.ofNatLt]

lemma lowChar_toNat (c : Char) :
    (lowChar c).toNat = if 65 ≤ c.toNat ∧ c.toNat ≤ 90 then c.toNat + 32 else c.toNat := by
  unfold lowChar
  split
  · next h => exact charToNat_ofNat (by omega)
  · next h => rfl

lemma isWhitespace_iff_toNat (c : Char) :
    c.isWhitespace = true ↔ (c.toNat = 32 ∨ c.toNat = 9 ∨ c.toNat = 13 ∨ c.toNat = 10) := by
  unfold Char.isWhitespace
  simp only [Bool.or_eq_true, decide_eq_true_eq, char_eq_iff_toNat,
    show (' ' : Char).toNat = 32 from rfl, show ('\t' : Char).toNat = 9 from rfl,
    show ('\x0d' : Char).toNat = 13 from rfl, show ('\n' : Char).toNat = 10 from rfl]
  tauto

lemma ws_lowChar (c : Char) : (lowChar c).isWhitespace = c.isWhitespace := by
  by_cases h : 65 ≤ c.toNat ∧ c.toNat ≤ 90
  · have h1 : (lowChar c).toNat = c.toNat + 32 := by rw [lowChar_toNat, if_pos h]
    have h2 : (lowChar c).isWhitespace = false := by
      by_contra hc
      have := (isWhitespace_iff_toNat (lowChar c)).mp (by
        cases hb : (lowChar c).isWhitespace
        · exact absurd hb hc
        · rfl)
      omega
    have h3 : c.isWhitespace = false := by
      by_contra hc
      have := (isWhitespace_iff_toNat c).mp (by
        cases hb : c.isWhitespace
        · exact absurd hb hc
        · rfl)
      omega
    rw [h2, h3]
  · unfold lowChar
    rw [if_neg h]

lemma lowChar_fix_of_not_upper {c : Char} (h : ¬ (65 ≤ c.toNat ∧ c.toNat ≤ 90)) :
    lowChar c = c := by
  unfold lowChar
  rw [if_neg h]

lemma lowChar_eq_iff_of_nonletter {c : Char} {d : Char}
    (hd1 : d.toNat < 65 ∨ (90 < d.toNat ∧ d.toNat < 97) ∨ 122 < d.toNat) :
    (lowChar c = d ↔ c = d) := by
  constructor
  · intro h
    by_cases hu : 65 ≤ c.toNat ∧ c.toNat ≤ 90
    · exfalso
      have h1 : (lowChar c).toNat = c.toNat + 32 := by rw [lowChar_toNat, if_pos hu]
      have h2 : (lowChar c).toNat = d.toNat := char_eq_iff_toNat.mp h
      omega
    · rwa [lowChar_fix_of_not_upper hu] at h
  · intro h
    subst h
    apply lowChar_fix_of_not_upper
    intro hu
    omega

lemma lowChar_idem (c : Char) : lowChar (lowChar c) = lowChar c := by
  by_cases hu : 65 ≤ c.toNat ∧ c.toNat ≤ 90
  · have h1 : (lowChar c).toNat = c.toNat + 32 := by rw [lowChar_toNat, if_pos hu]
    apply lowChar_fix_of_not_upper
    omega
  · rw [lowChar_fix_of_not_upper hu, lowChar_fix_of_not_upper hu]

lemma lower_idem (l : List Char) : lower (lower l) = lower l := by
  unfold lower
  rw [List.map_map]
  exact List.map_congr_left (fun c _ => lowChar_idem c)

lemma lowerS_idem (s : String) : lowerS (lowerS s) = lowerS s := by
  unfold lowerS
  exact congrArg _ (lower_idem s.data)

/-! Commutation of case folding with trimming and splitting. -/

lemma dropWhile_map_of {p : Char → Bool} {f : Char → Char}
    (hpf : ∀ c, p (f c) = p c) (l : List Char) :
    (l.map f).dropWhile p = (l.dropWhile p).map f := by
  induction l with
  | nil => rfl
  | cons c cs ih =>
    simp only [List.map_cons, List.dropWhile_cons, hpf c]
    split
    · exact ih
    · rfl

lemma trimL_lower (l : List Char) : trimL (lower l) = lower (trimL l) :=
  dropWhile_map_of ws_lowChar l

lemma trimR_lower (l : List Char) : trimR (lower l) = lower (trimR l) := by
  unfold trimR lower
  rw [← List.map_reverse, dropWhile_map_of ws_lowChar, List.map_reverse]

lemma trimChars_lower (l : List Char) : trimChars (lower l) = lower (trimChars l) := by
  unfold trimChars
  rw [trimL_lower, trimR_lower]

lemma trimS_lowerS (s : String) : trimS (lowerS s) = lowerS (trimS s) := by
  unfold trimS lowerS
  exact congrArg _ (trimChars_lower s.data)

lemma splitP_ne_nil (p : Char → Bool) (l : List Char) : splitP p l ≠ [] := by
  cases l with
  | nil => simp [splitP]
  | cons c cs =>
    unfold splitP
    cases h : splitP p cs with
    | nil => simp
    | cons g gs =>
      split
      · simp
      · split <;> simp

lemma splitP_map_of {p : Char → Bool} {f : Char → Char}
    (hpf : ∀ c, p (f c) = p c) (l : List Char) :
    splitP p (l.map f) = (splitP p l).map (List.map f) := by
  induction l with
  | nil => rfl
  | cons c cs ih =>
    simp only [List.map_cons]
    unfold splitP
    rw [ih]
    cases h : splitP p cs with
    | nil => exact absurd h (splitP_ne_nil p cs)
    | cons g gs =>
      simp only [List.map_cons, hpf c]
      split
      · rfl
      · rfl

lemma lower_eq_nil_iff (l : List Char) : lower l = [] ↔ l = [] := by
  unfold lower
  exact List.map_eq_nil_iff

lemma lowerS_eq_empty_iff (s : String) : lowerS s = "" ↔ s = "" := by
  constructor
  · intro h
    have hd : lower s.data = [] := congrArg String.data h
    have : s.data = [] := (lower_eq_nil_iff s.data).mp hd
    exact String.ext this
  · rintro rfl
    rfl

/-! Substring containment: the executable `containsSeg` agrees with the
propositional `isSegmentOf`. -/

lemma startsWithSeg_iff (n h : List Char) :
    startsWithSeg n h = true ↔ ∃ r, h = n ++ r := by
  induction n generalizing h with
  | nil => simp [startsWithSeg]
  | cons a as ih =>
    cases h with
    | nil =>
      simp only [startsWithSeg]
      constructor
      · intro hc; exact absurd hc (by simp)
      · rintro ⟨r, hr⟩; simp at hr
    | cons b bs =>
      simp only [startsWithSeg, Bool.and_eq_true, beq_iff_eq, ih]
      constructor
      · rintro ⟨rfl, r, rfl⟩; exact ⟨r, rfl⟩
      · rintro ⟨r, hr⟩
        rw [List.cons_append] at hr
        obtain ⟨h1, h2⟩ := List.cons.inj hr
        exact ⟨h1.symm ▸ rfl, r, h2⟩

lemma containsSeg_iff (h n : List Char) :
    containsSeg h n = true ↔ isSegmentOf n h := by
  induction h with
  | nil =>
    unfold containsSeg isSegmentOf
    simp only [Bool.or_false, startsWithSeg_iff]
    constructor
    · rintro ⟨r, hr⟩
      exact ⟨[], r, by simpa using hr⟩
    · rintro ⟨l, r, hr⟩
      have : l = [] ∧ n ++ r = [] := by
        constructor
        · cases l with
          | nil => rfl
          | cons x xs => simp at hr
        · cases l with
          | nil => simpa using hr.symm
          | cons x xs => simp at hr
      exact ⟨r, by simp [this.2]⟩
  | cons c t ih =>
    unfold containsSeg
    simp only [Bool.or_eq_true, startsWithSeg_iff, ih]
    constructor
    · rintro (⟨r, hr⟩ | ⟨l, r, hr⟩)
      · exact ⟨[], r, by simpa using hr⟩
      · exact ⟨c :: l, r, by simp [hr]⟩
    · rintro ⟨l, r, hr⟩
      cases l with
      | nil => exact Or.inl ⟨r, by simpa using hr⟩
      | cons x xs =>
        right
        rw [List.cons_append, List.cons_append] at hr
        obtain ⟨h1, h2⟩ := List.cons.inj hr
        exact ⟨xs, r, by simp [h2]⟩

lemma containsS_iff (s pat : String) :
    containsS s pat = true ↔ isSegmentOf pat.data s.data :=
  containsSeg_iff s.data pat.data

/-! Cache lookup on a snapshot with distinct paths. -/

lemma find?_path_self {l : List Track} {t : Track}
    (hnd : (l.map Track.path).Nodup) (ht : t ∈ l) :
    l.find? (fun u => u.path == t.path) = some t := by
  induction l with
  | nil => exact absurd ht (by simp)
  | cons u rest ih =>
    rw [List.map_cons, List.nodup_cons] at hnd
    rcases List.mem_cons.mp ht with rfl | htr
    · simp [List.find?]
    · have hne : (u.path == t.path) = false := by
        rw [beq_eq_false_iff_ne]
        intro he
        exact hnd.1 (he ▸ List.mem_map_of_mem Track.path htr)
      rw [List.find?]
      rw [hne]
      exact ih hnd.2 htr

lemma cacheLookup_self {old : List Track} {t : Track}
    (hnd : (old.map Track.path).Nodup) (ht : t ∈ old) :
    cacheLookup old t.path = some t := by
  unfold cacheLookup
  apply find?_path_self
  · rw [List.map_reverse]
    exact (List.nodup_reverse).mpr hnd
  · exact List.mem_reverse.mpr ht

lemma cacheLookup_path {old : List Track} {p : String} {t : Track}
    (h : cacheLookup old p = some t) : t.path = p := by
  unfold cacheLookup at h
  have := List.find?_some h
  exact beq_iff_eq.mp this

/-! Per-file pipeline facts. -/

lemma cacheHitTrack_eq {old : List Track} {p : String} {m sz : Nat} {t : Track}
    (hlook : cacheLookup old p = some t)
    (hm : t.mtime = m) (hs : t.size = sz) :
    cacheHitTrack old p m sz = some t := by
  unfold cacheHitTrack
  rw [hlook]
  simp [hm, hs]

lemma processEntry_cacheHit (cfg : Config) (old : List Track)
    (probe : String → Option TagData) (e : FsEntry) (t : Track) (m sz : Nat)
    (hfile : e.isFile = true)
    (hclass : entryClassifies cfg e = true)
    (hmeta : e.meta = some (m, sz))
    (hlook : cacheLookup old e.path = some t)
    (hm : t.mtime = m) (hs : t.size = sz) :
    processEntry cfg old probe e = (some t, false) := by
  have hx : ∃ x, e.ext = some x ∧ (classifyExt cfg x).isSome = true := by
    unfold entryClassifies at hclass
    cases hext : e.ext with
    | none => rw [hext] at hclass; exact absurd hclass (by simp)
    | some x => rw [hext] at hclass; exact ⟨x, rfl, hclass⟩
  obtain ⟨x, hext, hcs⟩ := hx
  obtain ⟨mt, hc⟩ := Option.isSome_iff_exists.mp hcs
  unfold processEntry
  simp only [hfile, hext, hc, hmeta, cacheHitTrack_eq hlook hm hs,
    Bool.true_eq_false, if_false]

lemma finishTrack_path {e : FsEntry} {m sz : Nat} {mt ti ar al ge : String} {tr : Track}
    (h : finishTrack e m sz mt ti ar al ge = some tr) : tr.path = e.path := by
  unfold finishTrack at h
  split at h
  · exact absurd h (by simp)
  · simp only [Option.some.injEq] at h
    subst h
    rfl

lemma processEntry_path {cfg : Config} {old : List Track}
    {probe : String → Option TagData} {e : FsEntry} {tr : Track} {b : Bool}
    (h : processEntry cfg old probe e = (some tr, b)) : tr.path = e.path := by
  unfold processEntry at h
  by_cases hf : e.isFile = false
  · rw [if_pos hf] at h; simp at h
  · rw [if_neg hf] at h
    cases hext : e.ext with
    | none => rw [hext] at h; simp at h
    | some x =>
      simp only [hext] at h
      cases hc : classifyExt cfg x with
      | none => rw [hc] at h; simp at h
      | some mt =>
        simp only [hc] at h
        cases hmeta : e.meta with
        | none => rw [hmeta] at h; simp at h
        | some ms =>
          simp only [hmeta] at h
          cases hht : cacheHitTrack old e.path ms.1 ms.2 with
          | some u =>
            simp only [hht, Prod.mk.injEq, Option.some.injEq] at h
            obtain ⟨rfl, -⟩ := h
            unfold cacheHitTrack at hht
            cases hl : cacheLookup old e.path with
            | none => rw [hl] at hht; simp at hht
            | some w =>
              simp only [hl] at hht
              split at hht
              · simp only [Option.some.injEq] at hht
                subst hht
                exact cacheLookup_path hl
              · simp at hht
          | none =>
            simp only [hht] at h
            split at h
            · simp only [Prod.mk.injEq] at h
              exact finishTrack_path h.1
            · cases hpr : probe e.path with
              | some td =>
                simp only [hpr, Prod.mk.injEq] at h
                exact finishTrack_path h.1
              | none =>
                simp only [hpr, Prod.mk.injEq] at h
                exact finishTrack_path h.1

/-! Digit and hex characters. -/

lemma isDigitCh_iff (c : Char) : isDigitCh c = true ↔ 48 ≤ c.toNat ∧ c.toNat ≤ 57 := by
  unfold isDigitCh
  exact decide_eq_true_iff

lemma digChar_toNat {d : Nat} (h : d < 10) : (digChar d).toNat = 48 + d := by
  unfold digChar
  exact charToNat_ofNat (by omega)

lemma isDigitCh_digChar {d : Nat} (h : d < 10) : isDigitCh (digChar d) = true := by
  rw [isDigitCh_iff, digChar_toNat h]
  omega

lemma ws_digChar {d : Nat} (h : d < 10) : (digChar d).isWhitespace = false := by
  cases hb : (digChar d).isWhitespace
  · rfl
  · have := (isWhitespace_iff_toNat _).mp hb
    rw [digChar_toNat h] at this
    omega

lemma hexVal_hexDig {d : Nat} (h : d < 16) : hexVal (hexDig d) = some d := by
  unfold hexVal hexDig
  by_cases h10 : d < 10
  · rw [if_pos h10]
    have ht : (Char.ofNat (48 + d)).toNat = 48 + d := charToNat_ofNat (by omega)
    rw [if_pos (by rw [ht]; omega), ht]
    congr 1
    omega
  · rw [if_neg h10]
    have ht : (Char.ofNat (87 + d)).toNat = 87 + d := charToNat_ofNat (by omega)
    rw [if_neg (by rw [ht]; omega), if_pos (by rw [ht]; omega), ht]
    congr 1
    omega

/-! Decimal serialization of naturals. -/

lemma natChars_lt {n : Nat} (h : n < 10) : natChars n = [digChar n] := by
  rw [natChars]
  exact dif_pos h

lemma natChars_ge {n : Nat} (h : ¬ n < 10) : natChars n = natChars (n / 10) ++ [digChar (n % 10)] := by
  rw [natChars]
  exact dif_neg h

lemma natChars_ne_nil (n : Nat) : natChars n ≠ [] := by
  by_cases h : n < 10
  · rw [natChars_lt h]; simp
  · rw [natChars_ge h]; simp

lemma natChars_digits (n : Nat) : ∀ c ∈ natChars n, isDigitCh c = true := by
  induction n using Nat.strong_induction_on with
  | _ n ih =>
    by_cases h : n < 10
    · rw [natChars_lt h]
      intro c hc
      rw [List.mem_singleton] at hc
      subst hc
      exact isDigitCh_digChar h
    · rw [natChars_ge h]
      intro c hc
      rcases List.mem_append.mp hc with h1 | h2
      · exact ih (n / 10) (Nat.div_lt_self (by omega) (by omega)) c h1
      · rw [List.mem_singleton] at h2
        subst h2
        exact isDigitCh_digChar (Nat.mod_lt _ (by omega))

lemma natChars_head_ne_zero (n : Nat) (hn : 1 ≤ n) :
    ∀ c cs, natChars n = c :: cs → ¬ c = '0' := by
  induction n using Nat.strong_induction_on with
  | _ n ih =>
    intro c cs heq hz
    subst hz
    by_cases h : n < 10
    · rw [natChars_lt h] at heq
      have hdz : digChar n = '0' := (List.cons.inj heq).1
      have h48 : (digChar n).toNat = 48 + n := digChar_toNat h
      rw [hdz] at h48
      have hz : ('0' : Char).toNat = 48 := rfl
      omega
    · rw [natChars_ge h] at heq
      cases hh : natChars (n / 10) with
      | nil => exact natChars_ne_nil _ hh
      | cons d ds =>
        rw [hh, List.cons_append] at heq
        have hd : d = '0' := (List.cons.inj heq).1
        exact ih (n / 10) (Nat.div_lt_self (by omega) (by omega)) (by omega) d ds hh hd

/-! Parsing back the decimal serialization. -/

lemma parseNatGo_digit {c : Char} (h : isDigitCh c = true) (acc : Nat) (rest : List Char) :
    parseNatGo acc (c :: rest) = parseNatGo (acc * 10 + (c.toNat - 48)) rest := by
  rw [parseNatGo]
  rw [if_pos h]

lemma parseNatGo_stop {c : Char} (h : isDigitCh c = false) (acc : Nat) (rs : List Char) :
    parseNatGo acc (c :: rs) = (acc, c :: rs) := by
  rw [parseNatGo]
  rw [if_neg (by simp [h])]

lemma parseNatGo_natChars (n : Nat) : ∀ acc rest,
    parseNatGo acc (natChars n ++ rest) =
      parseNatGo (acc * 10 ^ (natChars n).length + n) rest := by
  induction n using Nat.strong_induction_on with
  | _ n ih =>
    intro acc rest
    by_cases h : n < 10
    · rw [natChars_lt h]
      rw [List.cons_append, List.nil_append]
      rw [parseNatGo_digit (isDigitCh_digChar h), digChar_toNat h]
      simp only [List.length_singleton, pow_one]
      congr 2
      omega
    · rw [natChars_ge h]
      rw [List.append_assoc, List.cons_append, List.nil_append]
      rw [ih (n / 10) (Nat.div_lt_self (by omega) (by omega))]
      rw [parseNatGo_digit (isDigitCh_digChar (Nat.mod_lt _ (by omega))),
        digChar_toNat (Nat.mod_lt _ (by omega))]
      rw [List.length_append, List.length_singleton]
      congr 1
      have hdm : n / 10 * 10 + n % 10 = n := by omega
      have hpow : 10 ^ ((natChars (n / 10)).length + 1) = 10 ^ (natChars (n / 10)).length * 10 :=
        pow_succ 10 _
      calc (acc * 10 ^ (natChars (n / 10)).length + n / 10) * 10 + (48 + n % 10 - 48)
          = acc * (10 ^ (natChars (n / 10)).length * 10) + (n / 10 * 10 + n % 10) := by ring_nf; omega
        _ = acc * 10 ^ ((natChars (n / 10)).length + 1) + n := by rw [hdm, hpow]

lemma parseNatVal_natChars (n : Nat) {c : Char} (rs : List Char) (hc : isDigitCh c = false) :
    parseNatVal (natChars n ++ c :: rs) = some (n, c :: rs) := by
  have hgo : parseNatGo 0 (natChars n ++ c :: rs) = (n, c :: rs) := by
    rw [parseNatGo_natChars]
    rw [Nat.zero_mul, Nat.zero_add]
    exact parseNatGo_stop hc n rs
  cases hnc : natChars n with
  | nil => exact absurd hnc (natChars_ne_nil n)
  | cons d ds =>
    have hd : isDigitCh d = true := natChars_digits n d (by rw [hnc]; exact List.mem_cons_self d ds)
    rw [hnc, List.cons_append] at hgo
    show parseNatVal (d :: (ds ++ c :: rs)) = some (n, c :: rs)
    rw [parseNatVal]
    by_cases hz : d = '0'
    · subst hz
      have hn0 : n = 0 := by
        by_contra hne
        exact natChars_head_ne_zero n (by omega) '0' ds hnc rfl
      subst hn0
      have h0 : natChars 0 = [digChar 0] := natChars_lt (by omega)
      rw [hnc] at h0
      have hds : ds = [] := (List.cons.inj h0).2
      subst hds
      rw [if_pos rfl]
      simp only [List.nil_append, List.head?_cons, Option.any_some, hc]
      rw [if_neg (by simp)]
    · rw [if_neg hz, if_pos hd]
      rw [parseNatGo_digit hd, Nat.zero_mul, Nat.zero_add] at hgo
      rw [hgo]

/-! Whitespace skipping. -/

lemma skipWs_not_ws {c : Char} (h : c.isWhitespace = false) (cs : List Char) :
    skipWs (c :: cs) = c :: cs := by
  rw [skipWs]
  rw [if_neg (by simp [h])]

/-! String-literal serialization and parsing. -/

lemma parseStrGo_quote (fuel : Nat) (rest : List Char) :
    parseStrGo (fuel + 1) ('"' :: rest) = some ([], rest) := by
  rw [parseStrGo]
  rw [if_pos rfl]

lemma parseStrGo_esc {rest : List Char} {uc : Char} {rest3 : List Char} (fuel : Nat)
    (h : escDecode rest = some (uc, rest3)) :
    parseStrGo (fuel + 1) ('\\' :: rest) =
      match parseStrGo fuel rest3 with
      | some (s, r) => some (uc :: s, r)
      | none => none := by
  rw [parseStrGo]
  rw [if_neg (by decide), if_pos rfl, h]

lemma parseStrGo_raw {c : Char} (fuel : Nat) (rest : List Char)
    (hq : ¬ c = '"') (hb : ¬ c = '\\') (hc : ¬ c.toNat < 32) :
    parseStrGo (fuel + 1) (c :: rest) =
      match parseStrGo fuel rest with
      | some (s, r) => some (c :: s, r)
      | none => none := by
  rw [parseStrGo]
  rw [if_neg hq, if_neg hb, if_neg hc]

lemma escDecode_two {d uc : Char} (rest : List Char)
    (hdu : ¬ d = 'u') (hd : unescChar d = some uc) :
    escDecode (d :: rest) = some (uc, rest) := by
  rw [escDecode]
  rw [if_neg hdu, hd]

lemma escDecode_u {h1 h2 h3 h4 : Char} {a b c2 d : Nat} (rest : List Char)
    (ha : hexVal h1 = some a) (hb : hexVal h2 = some b)
    (hc : hexVal h3 = some c2) (hd : hexVal h4 = some d)
    (hv : ((a * 16 + b) * 16 + c2) * 16 + d < 55296) :
    escDecode ('u' :: h1 :: h2 :: h3 :: h4 :: rest) =
      some (Char.ofNat (((a * 16 + b) * 16 + c2) * 16 + d), rest) := by
  rw [escDecode]
  rw [if_pos rfl, hex4, ha, hb, hc, hd]
  exact if_pos (Or.inl hv)

lemma escChar_cases (c : Char) :
    (∃ e, escChar c = ['\\', e] ∧ ¬ e = 'u' ∧ unescChar e = some c) ∨
    (escChar c = ['\\', 'u', '0', '0', hexDig (c.toNat / 16), hexDig (c.toNat % 16)] ∧
      c.toNat < 32) ∨
    (escChar c = [c] ∧ ¬ c = '"' ∧ ¬ c = '\\' ∧ ¬ c.toNat < 32) := by
  unfold escChar
  split_ifs with h1 h2 h3 h4 h5 h6 h7 h8
  · subst h1; left; exact ⟨'"', rfl, by decide, by decide⟩
  · subst h2; left; exact ⟨'\\', rfl, by decide, by decide⟩
  · subst h3; left; exact ⟨'n', rfl, by decide, by decide⟩
  · subst h4; left; exact ⟨'r', rfl, by decide, by decide⟩
  · subst h5; left; exact ⟨'t', rfl, by decide, by decide⟩
  · left
    refine ⟨'b', rfl, by decide, ?_⟩
    have hcb : c = Char.ofNat 8 := by
      rw [char_eq_iff_toNat, h6, charToNat_ofNat (by omega)]
    rw [hcb]
    decide
  · left
    refine ⟨'f', rfl, by decide, ?_⟩
    have hcf : c = Char.ofNat 12 := by
      rw [char_eq_iff_toNat, h7, charToNat_ofNat (by omega)]
    rw [hcf]
    decide
  · right; left; exact ⟨rfl, h8⟩
  · right; right
    refine ⟨rfl, h1, h2, h8⟩

lemma parseStrGo_escStr : ∀ (s : List Char) (rest : List Char) (fuel : Nat),
    (escStr s ++ '"' :: rest).length ≤ fuel →
    parseStrGo fuel (escStr s ++ '"' :: rest) = some (s, rest) := by
  intro s
  induction s with
  | nil =>
    intro rest fuel hf
    rw [escStr, List.nil_append] at hf ⊢
    cases fuel with
    | zero => simp at hf
    | succ f => exact parseStrGo_quote f rest
  | cons c cs ih =>
    intro rest fuel hf
    rw [escStr, List.append_assoc] at hf ⊢
    have hflen : (escChar c).length + (escStr cs ++ '"' :: rest).length ≤ fuel := by
      rw [List.length_append] at hf
      omega
    rcases escChar_cases c with ⟨e, hec, hdu, hun⟩ | ⟨hec, hlt⟩ | ⟨hec, hq, hb, hraw⟩
    · rw [hec] at hflen ⊢
      obtain ⟨f, rfl⟩ : ∃ f, fuel = f + 1 := ⟨fuel - 1, by simp at hflen; omega⟩
      rw [List.cons_append, List.cons_append, List.nil_append]
      rw [parseStrGo_esc f (escDecode_two _ hdu hun)]
      rw [ih rest f (by simp at hflen ⊢; omega)]
    · rw [hec] at hflen ⊢
      obtain ⟨f, rfl⟩ : ∃ f, fuel = f + 1 := ⟨fuel - 1, by simp at hflen; omega⟩
      simp only [List.cons_append, List.nil_append]
      rw [parseStrGo_esc f (escDecode_u _ (show hexVal '0' = some 0 by decide)
        (show hexVal '0' = some 0 by decide) (hexVal_hexDig (by omega))
        (hexVal_hexDig (by omega)) (by omega))]
      rw [ih rest f (by simp at hflen ⊢; omega)]
      have hn : ((0 * 16 + 0) * 16 + c.toNat / 16) * 16 + c.toNat % 16 = c.toNat := by omega
      rw [hn, Char.ofNat_toNat]
    · rw [hec] at hflen ⊢
      obtain ⟨f, rfl⟩ : ∃ f, fuel = f + 1 := ⟨fuel - 1, by simp at hflen; omega⟩
      rw [List.cons_append, List.nil_append]
      rw [parseStrGo_raw f _ hq hb hraw]
      rw [ih rest f (by simp at hflen ⊢; omega)]

lemma parseStrBody_escStr (s rest : List Char) :
    parseStrBody (escStr s ++ '"' :: rest) = some (s, rest) := by
  unfold parseStrBody
  exact parseStrGo_escStr s rest _ le_rfl

/-! Token-level round trips. -/

lemma parseStrTok_ser (s : String) (rest : List Char) :
    parseStrTok (serStrInto s rest) = some (s, rest) := by
  unfold parseStrTok serStrInto
  rw [skipWs_not_ws (by decide)]
  simp only [if_true]
  rw [parseStrBody_escStr]

lemma ws_of_isDigitCh {c : Char} (h : isDigitCh c = true) : c.isWhitespace = false := by
  rw [isDigitCh_iff] at h
  cases hb : c.isWhitespace
  · rfl
  · have := (isWhitespace_iff_toNat c).mp hb
    omega

lemma skipWs_natChars (n : Nat) (rest : List Char) :
    skipWs (natChars n ++ rest) = natChars n ++ rest := by
  cases hnc : natChars n with
  | nil => exact absurd hnc (natChars_ne_nil n)
  | cons d ds =>
    rw [List.cons_append]
    exact skipWs_not_ws
      (ws_of_isDigitCh (natChars_digits n d (by rw [hnc]; exact List.mem_cons_self d ds))) _

lemma parseNatTok_ser (n : Nat) {c : Char} (rs : List Char) (hc : isDigitCh c = false) :
    parseNatTok (serNatInto n (c :: rs)) = some (n, c :: rs) := by
  unfold parseNatTok serNatInto
  rw [skipWs_natChars, parseNatVal_natChars n rs hc]

lemma expectChar_hit {c : Char} (hw : c.isWhitespace = false) (cs : List Char) :
    expectChar c (c :: cs) = some cs := by
  unfold expectChar
  rw [skipWs_not_ws hw]
  simp only [if_true]

/-! Object members. -/

lemma setField_path {p : PartT} (h : p.pathF = none) (v : String) (rest : List Char) :
    setField p "path" (serStrInto v rest) = some ({ p with pathF := some v }, rest) := by
  unfold setField
  rw [if_pos rfl]
  simp only [h, parseStrTok_ser]

lemma setField_title {p : PartT} (h : p.titleF = none) (v : String) (rest : List Char) :
    setField p "title" (serStrInto v rest) = some ({ p with titleF := some v }, rest) := by
  unfold setField
  rw [if_neg (by decide), if_pos rfl]
  simp only [h, parseStrTok_ser]

lemma setField_artist {p : PartT} (h : p.artistF = none) (v : String) (rest : List Char) :
    setField p "artist" (serStrInto v rest) = some ({ p with artistF := some v }, rest) := by
  unfold setField
  rw [if_neg (by decide), if_neg (by decide), if_pos rfl]
  simp only [h, parseStrTok_ser]

lemma setField_album {p : PartT} (h : p.albumF = none) (v : String) (rest : List Char) :
    setField p "album" (serStrInto v rest) = some ({ p with albumF := some v }, rest) := by
  unfold setField
  rw [if_neg (by decide), if_neg (by decide), if_neg (by decide), if_pos rfl]
  simp only [h, parseStrTok_ser]

lemma setField_genre {p : PartT} (h : p.genreF = none) (v : String) (rest : List Char) :
    setField p "genre" (serStrInto v rest) = some ({ p with genreF := some v }, rest) := by
  unfold setField
  rw [if_neg (by decide), if_neg (by decide), if_neg (by decide), if_neg (by decide), if_pos rfl]
  simp only [h, parseStrTok_ser]

lemma setField_mtime {p : PartT} (h : p.mtimeF = none) (n : Nat) {c : Char}
    (hc : isDigitCh c = false) (rs : List Char) :
    setField p "mtime" (serNatInto n (c :: rs)) = some ({ p with mtimeF := some n }, c :: rs) := by
  unfold setField
  rw [if_neg (by decide), if_neg (by decide), if_neg (by decide), if_neg (by decide),
    if_neg (by decide), if_pos rfl]
  simp only [h, parseNatTok_ser n rs hc]

lemma setField_size {p : PartT} (h : p.sizeF = none) (n : Nat) {c : Char}
    (hc : isDigitCh c = false) (rs : List Char) :
    setField p "size" (serNatInto n (c :: rs)) = some ({ p with sizeF := some n }, c :: rs) := by
  unfold setField
  rw [if_neg (by decide), if_neg (by decide), if_neg (by decide), if_neg (by decide),
    if_neg (by decide), if_neg (by decide), if_pos rfl]
  simp only [h, parseNatTok_ser n rs hc]

lemma setField_media {p : PartT} (h : p.mediaF = none) (v : String) (rest : List Char) :
    setField p "media_type" (serStrInto v rest) = some ({ p with mediaF := some v }, rest) := by
  unfold setField
  rw [if_neg (by decide), if_neg (by decide), if_neg (by decide), if_neg (by decide),
    if_neg (by decide), if_neg (by decide), if_neg (by decide), if_pos rfl]
  simp only [h, parseStrTok_ser]

lemma parseMembers_step_comma (fuel : Nat) {p p2 : PartT} (key : String) {V rest : List Char}
    (hset : setField p key V = some (p2, ',' :: rest)) :
    parseMembers (fuel + 1) p (serStrInto key (':' :: V)) = parseMembers fuel p2 rest := by
  rw [parseMembers]
  rw [parseStrTok_ser]
  simp only []
  rw [expectChar_hit (by decide)]
  simp only [hset]
  rw [skipWs_not_ws (by decide)]
  simp only [if_true]

lemma parseMembers_step_done (fuel : Nat) {p p2 : PartT} (key : String) {V rest : List Char}
    (hset : setField p key V = some (p2, '}' :: rest)) :
    parseMembers (fuel + 1) p (serStrInto key (':' :: V)) = some (p2, rest) := by
  rw [parseMembers]
  rw [parseStrTok_ser]
  simp only []
  rw [expectChar_hit (by decide)]
  simp only [hset]
  rw [skipWs_not_ws (by decide)]
  simp only [if_true]
  rw [if_neg (by decide)]

/-! The full line round trip. -/

lemma parseTrack_serLine (t : Track) : parseTrack (serLine t) = some t := by
  show parseTrackChars (serTrackChars t) = some t
  rw [serTrackChars]
  unfold parseTrackChars
  rw [skipWs_not_ws (by decide)]
  simp only [if_true]
  rw [show (8 : Nat) = 7 + 1 from rfl]
  rw [parseMembers_step_comma 7 "path" (setField_path rfl t.path _)]
  rw [show (7 : Nat) = 6 + 1 from rfl]
  rw [parseMembers_step_comma 6 "title" (setField_title rfl t.title _)]
  rw [show (6 : Nat) = 5 + 1 from rfl]
  rw [parseMembers_step_comma 5 "artist" (setField_artist rfl t.artist _)]
  rw [show (5 : Nat) = 4 + 1 from rfl]
  rw [parseMembers_step_comma 4 "album" (setField_album rfl t.album _)]
  rw [show (4 : Nat) = 3 + 1 from rfl]
  rw [parseMembers_step_comma 3 "genre" (setField_genre rfl t.genre _)]
  rw [show (3 : Nat) = 2 + 1 from rfl]
  rw [parseMembers_step_comma 2 "mtime" (setField_mtime rfl t.mtime (by decide) _)]
  rw [show (2 : Nat) = 1 + 1 from rfl]
  rw [parseMembers_step_comma 1 "size" (setField_size rfl t.size (by decide) _)]
  rw [show (1 : Nat) = 0 + 1 from rfl]
  rw [parseMembers_step_done 0 "media_type" (setField_media rfl t.media_type _)]
  simp only [skipWs, if_true]
  rfl

/-! Load and save of the whole store. -/

lemma isBlankLine_serLine (t : Track) : isBlankLine (serLine t) = false := by
  show ((serTrackChars t).all Char.isWhitespace) = false
  rw [serTrackChars, List.all_cons]
  rw [show ('{' : Char).isWhitespace = false from rfl]
  rw [Bool.false_and]

lemma loadLines_saveLines (ts : List Track) : loadLines (saveLines ts) = (ts, false) := by
  induction ts with
  | nil => rfl
  | cons t ts ih =>
    show loadLines (serLine t :: saveLines ts) = _
    rw [loadLines]
    rw [if_neg (by rw [isBlankLine_serLine]; exact Bool.false_ne_true)]
    rw [parseTrack_serLine]
    rw [ih]

lemma loadLines_fst (ls : List String) :
    (loadLines ls).1 = (ls.filter (fun l => !isBlankLine l)).filterMap parseTrack := by
  induction ls with
  | nil => rfl
  | cons l ls ih =>
    rw [loadLines, List.filter_cons]
    by_cases hb : isBlankLine l
    · rw [if_pos hb]
      rw [show (!isBlankLine l) = false from by rw [hb]; rfl]
      simp only [Bool.false_eq_true, if_false]
      exact ih
    · rw [if_neg hb]
      rw [show (!isBlankLine l) = true from by
        cases h : isBlankLine l
        · rfl
        · exact absurd h hb]
      simp only [if_true, List.filterMap_cons]
      cases hp : parseTrack l with
      | none => exact ih
      | some t => rw [ih]

lemma loadLines_snd_iff (ls : List String) :
    (loadLines ls).2 = true ↔ ∃ l ∈ ls, isBlankLine l = false ∧ parseTrack l = none := by
  induction ls with
  | nil => simp [loadLines]
  | cons l ls ih =>
    rw [loadLines]
    by_cases hb : isBlankLine l
    · rw [if_pos hb]
      rw [ih]
      constructor
      · rintro ⟨x, hx, hxx⟩
        exact ⟨x, List.mem_cons_of_mem l hx, hxx⟩
      · rintro ⟨x, hx, hx1, hx2⟩
        rcases List.mem_cons.mp hx with rfl | hxm
        · rw [hb] at hx1
          exact absurd hx1 (by simp)
        · exact ⟨x, hxm, hx1, hx2⟩
    · rw [if_neg hb]
      have hbf : isBlankLine l = false := by
        cases h : isBlankLine l
        · rfl
        · exact absurd h hb
      cases hp : parseTrack l with
      | none =>
        simp only []
        constructor
        · intro _
          exact ⟨l, List.mem_cons_self l ls, hbf, hp⟩
        · intro _
          trivial
      | some t =>
        simp only []
        rw [ih]
        constructor
        · rintro ⟨x, hx, hxx⟩
          exact ⟨x, List.mem_cons_of_mem l hx, hxx⟩
        · rintro ⟨x, hx, hx1, hx2⟩
          rcases List.mem_cons.mp hx with rfl | hxm
          · rw [hp] at hx2
            exact absurd hx2 (by simp)
          · exact ⟨x, hxm, hx1, hx2⟩

lemma load_index_reload (ls : List String) :
    loadLines (load_index ls).2 = ((loadLines ls).1, false) := by
  unfold load_index
  cases hr : (loadLines ls).2
  · simp only [hr, Bool.false_eq_true, if_false]
    have : loadLines ls = ((loadLines ls).1, (loadLines ls).2) := rfl
    rw [this, hr]
  · simp only [hr, if_true]
    exact loadLines_saveLines _

lemma scanTracks_paths_sublist (cfg : Config) (old : List Track)
    (probe : String → Option TagData) (entries : List FsEntry) :
    List.Sublist ((scanTracks cfg old probe entries).map Track.path)
      (entries.map FsEntry.path) := by
  induction entries with
  | nil => simp [scanTracks, scanEntries]
  | cons e es ih =>
    unfold scanTracks scanEntries at *
    rw [List.map_cons, List.map_cons, List.filterMap_cons]
    cases hp : processEntry cfg old probe e with
    | mk fst snd =>
      cases fst with
      | none =>
        simp only []
        exact List.Sublist.cons _ ih
      | some tr =>
        simp only []
        rw [List.map_cons, processEntry_path hp]
        exact List.Sublist.cons₂ _ ih

/-! Query-filter characterizations. -/

lemma beq_lowChar_comma (c : Char) : (lowChar c == ',') = (c == ',') := by
  cases h : c == ','
  · have hne : ¬ c = ',' := by simpa using h
    have hl : ¬ lowChar c = ',' := fun hl =>
      hne ((lowChar_eq_iff_of_nonletter (Or.inl (by decide))).mp hl)
    simpa using hl
  · have heq : c = ',' := by simpa using h
    subst heq
    decide

lemma beq_lowChar_semi (c : Char) : (lowChar c == ';') = (c == ';') := by
  cases h : c == ';'
  · have hne : ¬ c = ';' := by simpa using h
    have hl : ¬ lowChar c = ';' := fun hl =>
      hne ((lowChar_eq_iff_of_nonletter (Or.inl (by decide))).mp hl)
    simpa using hl
  · have heq : c = ';' := by simpa using h
    subst heq
    decide

lemma splitS_comma_lowerS (v : String) :
    splitS (fun c => c == ',') (lowerS v) = (splitS (fun c => c == ',') v).map lowerS := by
  unfold splitS lowerS lower
  rw [splitP_map_of beq_lowChar_comma]
  rw [List.map_map, List.map_map]
  rfl

lemma splitS_sc_lowerS (v : String) :
    splitS (fun c => c == ';' || c == ',') (lowerS v) =
      (splitS (fun c => c == ';' || c == ',') v).map lowerS := by
  unfold splitS lowerS lower
  rw [splitP_map_of (fun c => by rw [beq_lowChar_semi, beq_lowChar_comma])]
  rw [List.map_map, List.map_map]
  rfl

lemma prepareTerms_lower (v : String) :
    prepareTerms (some v) = some ((specTermsOf v).map lowerS) := by
  unfold prepareTerms specTermsOf
  simp only [Option.map_some']
  congr 1
  rw [splitS_comma_lowerS, List.map_map]
  have hmap : (List.map (trimS ∘ lowerS) (splitS (fun c => c == ',') v)) =
      List.map (lowerS ∘ trimS) (splitS (fun c => c == ',') v) :=
    List.map_congr_left (fun s _ => trimS_lowerS s)
  rw [hmap, ← List.map_map]
  rw [List.filter_map]
  congr 1
  apply List.filter_congr
  intro s _
  have : (lowerS s ≠ "") ↔ (s ≠ "") := not_congr (lowerS_eq_empty_iff s)
  simp [Function.comp, this]

lemma subTags_lower (field : String) :
    (splitS (fun c => c == ';' || c == ',') (lowerS field)).map trimS =
      (specSubValues field).map (fun sub => lowerS (trimS sub)) := by
  unfold specSubValues
  rw [splitS_sc_lowerS, List.map_map]
  exact List.map_congr_left (fun s _ => trimS_lowerS s)

lemma fieldMatches_exact_iff (o : Option String) (field : String) :
    fieldMatches true field (prepareTerms o) = true ↔ specFieldExact o field := by
  cases o with
  | none => simp [fieldMatches, prepareTerms, specFieldExact]
  | some v =>
    rw [prepareTerms_lower]
    unfold fieldMatches specFieldExact
    simp only [if_true]
    rw [subTags_lower]
    simp only [List.any_eq_true, List.mem_map, beq_iff_eq]
    unfold eqCI
    constructor
    · rintro ⟨term, ⟨a, ha, rfl⟩, hx⟩
      rcases hx with ⟨tag, ⟨sub, hsub, rfl⟩, heq⟩
      exact ⟨a, ha, sub, hsub, heq⟩
    · rintro ⟨a, ha, sub, hsub, heq⟩
      exact ⟨lowerS a, ⟨a, ha, rfl⟩, ⟨lowerS (trimS sub), ⟨sub, hsub, rfl⟩, heq⟩⟩

lemma fieldMatches_partial_iff (o : Option String) (field : String) :
    fieldMatches false field (prepareTerms o) = true ↔ specFieldSubstr o field := by
  cases o with
  | none => simp [fieldMatches, prepareTerms, specFieldSubstr]
  | some v =>
    rw [prepareTerms_lower]
    unfold fieldMatches specFieldSubstr
    simp only [Bool.false_eq_true, if_false, List.any_eq_true, List.mem_map]
    constructor
    · rintro ⟨term, ⟨a, ha, rfl⟩, hx⟩
      exact ⟨a, ha, (containsS_iff _ _).mp hx⟩
    · rintro ⟨a, ha, hseg⟩
      exact ⟨lowerS a, ⟨a, ha, rfl⟩, (containsS_iff _ _).mpr hseg⟩

lemma mem_applyCliFilters_iff (tracks : List Track) (args : Args) (exact : Bool) (t : Track) :
    t ∈ applyCliFilters tracks args exact ↔ t ∈ tracks ∧
      fieldMatches exact t.genre (prepareTerms args.genre) = true ∧
      fieldMatches exact t.artist (prepareTerms args.artist) = true ∧
      fieldMatches exact t.album (prepareTerms args.album) = true ∧
      (match args.title.map lowerS with
       | none => true
       | some ti => containsS (lowerS t.title) ti) = true := by
  unfold applyCliFilters
  rw [List.mem_filter]
  simp only [Bool.and_eq_true, and_assoc]

/-! Shape of the resolution flow. -/

lemma resolveQuery_exactAttempted (tracks : List Track) (args : Args)
    (sel : List String → Option String) :
    (resolveQuery tracks args sel).exactAttempted = !isMultiValueSearch args := by
  simp only [resolveQuery]
  repeat' split
  all_goals rfl

lemma resolveQuery_clarify (tracks : List Track) (args : Args)
    (sel : List String → Option String)
    (hm : isMultiValueSearch args = false)
    (he : applyCliFilters tracks args true = [])
    (hp : ¬ applyCliFilters tracks args false = [])
    (hk : ¬ activeKey args = "")
    (hc : 1 < (uniqueOptions (activeKey args) (applyCliFilters tracks args false)).length) :
    resolveQuery tracks args sel =
      match sel (sortStrs (uniqueOptions (activeKey args) (applyCliFilters tracks args false))) with
      | some v =>
        { outcome :=
            if applyCliFilters tracks (setKey args (activeKey args) v) true = []
            then Outcome.noMatch
            else Outcome.results (applyCliFilters tracks (setKey args (activeKey args) v) true),
          exactAttempted := true, selectionInvoked := true }
      | none =>
        { outcome := Outcome.aborted, exactAttempted := true, selectionInvoked := true } := by
  simp only [resolveQuery]
  split_ifs with h1 h2 h3 h4 <;>
    first
    | (exfalso; simp_all; done)
    | (rw [hm]; rfl)
    | rfl

lemma resolveQuery_exactHit (tracks : List Track) (args : Args)
    (sel : List String → Option String)
    (hm : isMultiValueSearch args = false)
    (he : ¬ applyCliFilters tracks args true = []) :
    resolveQuery tracks args sel =
      { outcome := Outcome.results (applyCliFilters tracks args true),
        exactAttempted := true, selectionInvoked := false } := by
  simp only [resolveQuery]
  split_ifs with h1 h2 h3 h4 <;>
    first
    | (exfalso; simp_all; done)
    | (rw [hm]; rfl)
    | rfl

lemma resolveQuery_noMatch (tracks : List Track) (args : Args)
    (sel : List String → Option String)
    (hstage2 : isMultiValueSearch args = true ∨ applyCliFilters tracks args true = [])
    (hp : applyCliFilters tracks args false = []) :
    resolveQuery tracks args sel =
      { outcome := Outcome.noMatch,
        exactAttempted := !isMultiValueSearch args, selectionInvoked := false } := by
  simp only [resolveQuery]
  split_ifs with h1 h2 h3 h4 <;> first | rfl | (exfalso; simp_all; done)

lemma resolveQuery_direct (tracks : List Track) (args : Args)
    (sel : List String → Option String)
    (hstage2 : isMultiValueSearch args = true ∨ applyCliFilters tracks args true = [])
    (hp : ¬ applyCliFilters tracks args false = [])
    (hnoclar : ¬ (1 < (uniqueOptions (activeKey args) (applyCliFilters tracks args false)).length ∧
        ¬ activeKey args = "" ∧ isMultiValueSearch args = false)) :
    resolveQuery tracks args sel =
      { outcome := Outcome.results (applyCliFilters tracks args false),
        exactAttempted := !isMultiValueSearch args, selectionInvoked := false } := by
  simp only [resolveQuery]
  split_ifs with h1 h2 h3 h4 <;> first | rfl | (exfalso; simp_all; done)

lemma resolveQuery_selectionInvoked_iff (tracks : List Track) (args : Args)
    (sel : List String → Option String) :
    (resolveQuery tracks args sel).selectionInvoked = true ↔
      (isMultiValueSearch args = false ∧ applyCliFilters tracks args true = [] ∧
       ¬ applyCliFilters tracks args false = [] ∧ ¬ activeKey args = "" ∧
       1 < (uniqueOptions (activeKey args) (applyCliFilters tracks args false)).length) := by
  constructor
  · intro hinv
    by_cases hm : isMultiValueSearch args = false
    · by_cases he : applyCliFilters tracks args true = []
      · by_cases hp : applyCliFilters tracks args false = []
        · rw [resolveQuery_noMatch tracks args sel (Or.inr he) hp] at hinv
          exact absurd hinv (by simp)
        · by_cases hk : activeKey args = ""
          · rw [resolveQuery_direct tracks args sel (Or.inr he) hp
              (by rintro ⟨-, hk2, -⟩; exact hk2 hk)] at hinv
            exact absurd hinv (by simp)
          · by_cases hc : 1 < (uniqueOptions (activeKey args)
                (applyCliFilters tracks args false)).length
            · exact ⟨hm, he, hp, hk, hc⟩
            · rw [resolveQuery_direct tracks args sel (Or.inr he) hp
                (by rintro ⟨hc2, -, -⟩; exact hc hc2)] at hinv
              exact absurd hinv (by simp)
      · rw [resolveQuery_exactHit tracks args sel hm he] at hinv
        exact absurd hinv (by simp)
    · have hm' : isMultiValueSearch args = true := by
        cases h : isMultiValueSearch args
        · exact absurd h hm
        · rfl
      by_cases hp : applyCliFilters tracks args false = []
      · rw [resolveQuery_noMatch tracks args sel (Or.inl hm') hp] at hinv
        exact absurd hinv (by simp)
      · rw [resolveQuery_direct tracks args sel (Or.inl hm') hp
          (by rintro ⟨-, -, hmf⟩; rw [hm'] at hmf; exact absurd hmf (by simp))] at hinv
        exact absurd hinv (by simp)
  · rintro ⟨hm, he, hp, hk, hc⟩
    rw [resolveQuery_clarify tracks args sel hm he hp hk hc]
    cases sel (sortStrs (uniqueOptions (activeKey args) (applyCliFilters tracks args false))) with
    | none => rfl
    | some v => rfl

/-! Remaining scan-level helpers. -/

lemma scanEntries_all_hits (cfg : Config) (old : List Track)
    (probe : String → Option TagData)
    (hnd : (old.map Track.path).Nodup) :
    ∀ (pairs : List (FsEntry × Track)),
      (∀ p ∈ pairs, p.1.isFile = true ∧ p.1.path = p.2.path ∧
        p.1.meta = some (p.2.mtime, p.2.size) ∧ entryClassifies cfg p.1 = true ∧ p.2 ∈ old) →
      scanEntries cfg old probe (pairs.map Prod.fst) =
        pairs.map (fun p => (some p.2, false)) := by
  intro pairs
  induction pairs with
  | nil => intro _; rfl
  | cons p ps ih =>
    intro hcorr
    obtain ⟨hf, hpath, hmeta, hcls, hmem⟩ := hcorr p (List.mem_cons_self p ps)
    have hlook : cacheLookup old p.1.path = some p.2 := by
      rw [hpath]
      exact cacheLookup_self hnd hmem
    rw [List.map_cons, List.map_cons]
    unfold scanEntries
    rw [List.map_cons]
    rw [processEntry_cacheHit cfg old probe p.1 p.2 p.2.mtime p.2.size hf hcls hmeta hlook rfl rfl]
    have htail := ih (fun q hq => hcorr q (List.mem_cons_of_mem p hq))
    unfold scanEntries at htail
    rw [htail]

lemma finishTrack_fields {e : FsEntry} {m sz : Nat} {mt ti ar al ge : String} {tr : Track}
    (h : finishTrack e m sz mt ti ar al ge = some tr) :
    tr.path = e.path ∧ tr.media_type = mt ∧ tr.mtime = m ∧ tr.size = sz ∧
    tr.artist = (if ar = "" then "UNKNOWN" else ar) ∧
    tr.album = (if al = "" then "UNKNOWN" else al) ∧
    tr.genre = (if ge = "" then "UNKNOWN" else ge) ∧
    ((ti = "" ∧ ∃ st, e.stem = some st ∧ tr.title = st) ∨ (¬ ti = "" ∧ tr.title = ti)) := by
  unfold finishTrack at h
  by_cases hti : ti = ""
  · rw [if_pos hti] at h
    cases hst : e.stem with
    | none => rw [hst] at h; exact absurd h (by simp)
    | some st =>
      rw [hst] at h
      simp only [Option.some.injEq] at h
      subst h
      refine ⟨rfl, rfl, rfl, rfl, rfl, rfl, rfl, Or.inl ⟨hti, st, rfl, rfl⟩⟩
  · rw [if_neg hti] at h
    simp only [Option.some.injEq] at h
    subst h
    refine ⟨rfl, rfl, rfl, rfl, rfl, rfl, rfl, Or.inr ⟨hti, rfl⟩⟩

lemma filterMap_fst_map_some (pairs : List (FsEntry × Track)) :
    (pairs.map (fun p => ((some p.2 : Option Track), false))).filterMap Prod.fst =
      pairs.map Prod.snd := by
  induction pairs with
  | nil => rfl
  | cons q qs ih => simp [ih]

lemma filter_snd_map_some_false (pairs : List (FsEntry × Track)) :
    (pairs.map (fun p => ((some p.2 : Option Track), false))).filter Prod.snd = [] := by
  induction pairs with
  | nil => rfl
  | cons q qs ih => simp [ih]

lemma ite_empty_ne_empty (s : String) : ¬ (if s = "" then "UNKNOWN" else s) = "" := by
  by_cases hs : s = ""
  · rw [if_pos hs]
    decide
  · rw [if_neg hs]
    exact hs

/-! ## Claim theorems -/

/-- C1: on an incremental scan, a classified walk entry whose path is in
the loaded snapshot with unchanged mtime and size yields the old Track
verbatim with the probe not invoked; consequently when the walked
entries correspond exactly to the snapshot with no changes, the scan
output is the old snapshot as a set and the probe count is zero. -/
theorem c1_incremental_cache_hits :
    (∀ (cfg : Config) (old : List Track) (probe : String → Option TagData) (e : FsEntry)
        (t : Track) (m sz : Nat),
      e.isFile = true → entryClassifies cfg e = true → e.meta = some (m, sz) →
      cacheLookup old e.path = some t → t.mtime = m → t.size = sz →
      processEntry cfg old probe e = (some t, false)) ∧
    (∀ (cfg : Config) (probe : String → Option TagData)
        (pairs : List (FsEntry × Track)) (old : List Track),
      List.Perm (pairs.map Prod.snd) old →
      (old.map Track.path).Nodup →
      (∀ p ∈ pairs, p.1.isFile = true ∧ p.1.path = p.2.path ∧
        p.1.meta = some (p.2.mtime, p.2.size) ∧ entryClassifies cfg p.1 = true) →
      List.Perm (scanTracks cfg old probe (pairs.map Prod.fst)) old ∧
      probeCount cfg old probe (pairs.map Prod.fst) = 0) := by
  constructor
  · intro cfg old probe e t m sz hf hcls hmeta hlook hm hs
    exact processEntry_cacheHit cfg old probe e t m sz hf hcls hmeta hlook hm hs
  · intro cfg probe pairs old hperm hnd hcorr
    have hall : scanEntries cfg old probe (pairs.map Prod.fst) =
        pairs.map (fun p => (some p.2, false)) :=
      scanEntries_all_hits cfg old probe hnd pairs
        (fun p hp => ⟨(hcorr p hp).1, (hcorr p hp).2.1, (hcorr p hp).2.2.1, (hcorr p hp).2.2.2,
          hperm.subset (List.mem_map_of_mem Prod.snd hp)⟩)
    constructor
    · unfold scanTracks
      rw [hall, filterMap_fst_map_some]
      exact hperm
    · unfold probeCount
      rw [hall, filter_snd_map_some_false]
      rfl

/-- C1 witness: a one-track library rescanned with no changes reuses the
cached Track and performs zero probes. -/
theorem c1_witness :
    List.Perm (scanTracks cfgMp3 [trackHit] probeNone ([(entryHit, trackHit)].map Prod.fst))
      [trackHit] ∧
    probeCount cfgMp3 [trackHit] probeNone ([(entryHit, trackHit)].map Prod.fst) = 0 :=
  c1_incremental_cache_hits.2 cfgMp3 probeNone [(entryHit, trackHit)] [trackHit]
    (by decide) (by decide) (by decide)

/-- C8: parsing the one-line serialization of any Track yields the same
Track, and saving any collection then loading returns the same
collection with the repair flag off. -/
theorem c8_round_trip_persistence :
    (∀ t : Track, parseTrack (serLine t) = some t) ∧
    (∀ ts : List Track, loadLines (saveLines ts) = (ts, false)) :=
  ⟨parseTrack_serLine, loadLines_saveLines⟩

/-- C9: classification checks the audio set first, then the playlist
set, then the video set only when video is enabled, and otherwise yields
none; matching is case-insensitive, and `Song.MP3` classifies as audio
when `mp3` is configured. -/
theorem c9_extension_classification :
    (∀ (cfg : Config) (x : String),
      ((to_set cfg.audio_exts).contains (lowerS x) = true →
        classifyExt cfg x = some "audio") ∧
      ((to_set cfg.audio_exts).contains (lowerS x) = false →
        (to_set cfg.playlist_exts).contains (lowerS x) = true →
        classifyExt cfg x = some "playlist") ∧
      ((to_set cfg.audio_exts).contains (lowerS x) = false →
        (to_set cfg.playlist_exts).contains (lowerS x) = false →
        (classifyExt cfg x = some "video" ↔
          cfg.video_ok = true ∧ (to_set cfg.video_exts).contains (lowerS x) = true)) ∧
      ((to_set cfg.audio_exts).contains (lowerS x) = false →
        (to_set cfg.playlist_exts).contains (lowerS x) = false →
        (cfg.video_ok = false ∨ (to_set cfg.video_exts).contains (lowerS x) = false) →
        classifyExt cfg x = none) ∧
      classifyExt cfg (lowerS x) = classifyExt cfg x) ∧
    classifyExt cfgMp3 "MP3" = some "audio" := by
  constructor
  · intro cfg x
    refine ⟨?_, ?_, ?_, ?_, ?_⟩
    · intro ha
      unfold classifyExt
      rw [if_pos ha]
    · intro ha hp
      unfold classifyExt
      rw [if_neg (by rw [ha]; exact Bool.false_ne_true), if_pos hp]
    · intro ha hp
      unfold classifyExt
      rw [if_neg (by rw [ha]; exact Bool.false_ne_true),
        if_neg (by rw [hp]; exact Bool.false_ne_true)]
      constructor
      · intro hv
        by_cases hc : (cfg.video_ok && (to_set cfg.video_exts).contains (lowerS x)) = true
        · exact ⟨(Bool.and_eq_true _ _).mp hc |>.1, (Bool.and_eq_true _ _).mp hc |>.2⟩
        · rw [if_neg hc] at hv
          exact absurd hv (by simp)
      · rintro ⟨hok, hvx⟩
        rw [if_pos (by rw [hok, hvx]; rfl)]
    · intro ha hp hv
      unfold classifyExt
      rw [if_neg (by rw [ha]; exact Bool.false_ne_true),
        if_neg (by rw [hp]; exact Bool.false_ne_true)]
      rw [if_neg (by rcases hv with h | h <;> (intro hcc; rw [h] at hcc; simp at hcc))]
    · unfold classifyExt
      rw [lowerS_idem]
  · decide

/-- C9 witness: `Song.MP3`'s extension classifies as audio in a
configuration whose audio set contains `mp3`. -/
theorem c9_witness : classifyExt cfgMp3 "MP3" = some "audio" :=
  (c9_extension_classification.1 cfgMp3 "MP3").1 (by decide)

/-- C10 counterexample: with nested music directories the same file is
walked twice and the scan emits its path twice, so snapshot paths are
not pairwise distinct. -/
theorem c10_counterexample :
    ¬ ((scanConfig cfgNested walkNested [] probeNone).map Track.path).Nodup := by
  decide

/-- C10 amended: when the directory walk enumerates pairwise-distinct
file paths across the configured music directories (in particular when
no configured directory contains another), the snapshot produced by a
scan has pairwise-distinct path values. -/
theorem c10_path_uniqueness_amended :
    ∀ (cfg : Config) (walk : String → List FsEntry) (old : List Track)
      (probe : String → Option TagData),
      ((cfg.music_dirs.flatMap walk).map FsEntry.path).Nodup →
      ((scanConfig cfg walk old probe).map Track.path).Nodup := by
  intro cfg walk old probe hnd
  exact List.Nodup.sublist (scanTracks_paths_sublist cfg old probe _) hnd

/-- C10 witness: a single-directory walk over one file yields a
snapshot with distinct paths. -/
theorem c10_witness :
    ((scanConfig cfgMp3 walkSingle [] probeNone).map Track.path).Nodup :=
  c10_path_uniqueness_amended cfgMp3 walkSingle [] probeNone (by decide)

/-- C2: the load parses each non-blank line independently, skips blank
lines, drops unparseable lines while setting the repair flag, returns
exactly the Tracks of the parseable lines; on corruption the store is
rewritten with the survivors, and a subsequent load of the resulting
store returns the same Tracks with the repair flag off. -/
theorem c2_load_robustness (ls : List String) :
    (loadLines ls).1 = (ls.filter (fun l => !isBlankLine l)).filterMap parseTrack ∧
    ((loadLines ls).2 = true ↔ ∃ l ∈ ls, isBlankLine l = false ∧ parseTrack l = none) ∧
    ((loadLines ls).2 = true → (load_index ls).2 = saveLines (loadLines ls).1) ∧
    loadLines (load_index ls).2 = ((loadLines ls).1, false) := by
  refine ⟨loadLines_fst ls, loadLines_snd_iff ls, ?_, load_index_reload ls⟩
  intro h
  simp only [load_index]
  rw [if_pos h]

/-- C2 witness: a store holding one corrupt line loads zero Tracks with
the repair flag on, and reloading the rewritten store yields the same
zero Tracks with the flag off. -/
theorem c2_witness :
    ((loadLines ["oops"]).2 = true → (load_index ["oops"]).2 = saveLines (loadLines ["oops"]).1) ∧
    loadLines (load_index ["oops"]).2 = ((loadLines ["oops"]).1, false) :=
  ⟨(c2_load_robustness ["oops"]).2.2.1, (c2_load_robustness ["oops"]).2.2.2⟩

/-- C3: with the title filter absent, membership in the exact pass is
equivalent to every active field filter having a requested term that
equals (case-insensitively after trimming) a sub-value of the field
split on `;`/`,`, and membership in the partial pass to a requested
term being a case-insensitive substring of the raw field text; in
particular `genre = Pop;Rock` matches exact `rock`, not exact `ro`,
and matches partial `ro`. -/
theorem c3_exact_partial_semantics :
    (∀ (tracks : List Track) (args : Args) (t : Track), args.title = none →
      ((t ∈ applyCliFilters tracks args true ↔ t ∈ tracks ∧
          specFieldExact args.genre t.genre ∧ specFieldExact args.artist t.artist ∧
          specFieldExact args.album t.album) ∧
       (t ∈ applyCliFilters tracks args false ↔ t ∈ tracks ∧
          specFieldSubstr args.genre t.genre ∧ specFieldSubstr args.artist t.artist ∧
          specFieldSubstr args.album t.album))) ∧
    applyCliFilters [trackPR] qRock true = [trackPR] ∧
    applyCliFilters [trackPR] qRo true = [] ∧
    applyCliFilters [trackPR] qRo false = [trackPR] := by
  refine ⟨?_, by decide, by decide, by decide⟩
  intro tracks args t htitle
  constructor
  · rw [mem_applyCliFilters_iff, htitle]
    simp only [Option.map_none', fieldMatches_exact_iff]
    tauto
  · rw [mem_applyCliFilters_iff, htitle]
    simp only [Option.map_none', fieldMatches_partial_iff]
    tauto

/-- C3 witness: instantiated at the `Pop;Rock` fixture and the exact
query `rock`. -/
theorem c3_witness :
    trackPR ∈ applyCliFilters [trackPR] qRock true ↔ trackPR ∈ [trackPR] ∧
      specFieldExact qRock.genre trackPR.genre ∧ specFieldExact qRock.artist trackPR.artist ∧
      specFieldExact qRock.album trackPR.album :=
  (c3_exact_partial_semantics.1 [trackPR] qRock trackPR (by decide)).1

/-- C6 counterexample: the title filter is not split on commas — a
track titled `alpha` fails the title filter `alpha,beta` in both
passes even though the term `alpha` is a substring of the title. -/
theorem c6_counterexample :
    "alpha" ∈ specTermsOf "alpha,beta" ∧
    containsS (lowerS trackAlpha.title) (lowerS "alpha") = true ∧
    applyCliFilters [trackAlpha] qTitleList false = [] ∧
    applyCliFilters [trackAlpha] qTitleList true = [] := by
  decide

/-- C6 amended: the whole title value is used as a single
case-insensitive substring pattern (no comma splitting), identically in
the exact and the partial pass. -/
theorem c6_title_filter :
    ∀ (tracks : List Track) (args : Args) (v : String) (exact : Bool) (t : Track),
      args.title = some v →
      (t ∈ applyCliFilters tracks args exact ↔
        t ∈ applyCliFilters tracks { args with title := none } exact ∧
        isSegmentOf (lowerS v).data (lowerS t.title).data) := by
  intro tracks args v exact t htitle
  rw [mem_applyCliFilters_iff, mem_applyCliFilters_iff, htitle]
  simp only [Option.map_some', Option.map_none', containsS_iff]
  tauto

/-- C6 witness: instantiated at the `alpha` fixture and the title
filter `alpha,beta`, in the partial pass. -/
theorem c6_witness :
    trackAlpha ∈ applyCliFilters [trackAlpha] qTitleList false ↔
      trackAlpha ∈ applyCliFilters [trackAlpha] { qTitleList with title := none } false ∧
      isSegmentOf (lowerS "alpha,beta").data (lowerS trackAlpha.title).data :=
  c6_title_filter [trackAlpha] qTitleList "alpha,beta" false trackAlpha (by decide)

/-- C7: a Track built fresh during a scan (cache miss) is fully
populated: a playlist Track gets stem title and the synthetic
Playlist/Playlists/Playlist fields with no probe invocation; any other
Track invokes the probe and replaces empty fields by the stem (title)
or `UNKNOWN` (artist, album, genre), so no emitted fresh Track has an
empty field. -/
theorem c7_fresh_track_fields :
    ∀ (cfg : Config) (old : List Track) (probe : String → Option TagData) (e : FsEntry)
      (x mt : String) (m sz : Nat) (tr : Track) (b : Bool),
      (∀ st, e.stem = some st → ¬ st = "") →
      e.isFile = true →
      e.ext = some x →
      classifyExt cfg x = some mt →
      e.meta = some (m, sz) →
      cacheHitTrack old e.path m sz = none →
      processEntry cfg old probe e = (some tr, b) →
      ((mt = "playlist" →
          b = false ∧ ∃ st, e.stem = some st ∧ tr.title = st ∧
            tr.artist = "Playlist" ∧ tr.album = "Playlists" ∧ tr.genre = "Playlist") ∧
       (¬ mt = "playlist" → b = true) ∧
       (¬ mt = "playlist" → probe e.path = none →
          tr.artist = "UNKNOWN" ∧ tr.album = "UNKNOWN" ∧ tr.genre = "UNKNOWN" ∧
          ∃ st, e.stem = some st ∧ tr.title = st) ∧
       (∀ td, ¬ mt = "playlist" → probe e.path = some td →
          tr.artist = (if td.artist.getD "" = "" then "UNKNOWN" else td.artist.getD "") ∧
          tr.album = (if td.album.getD "" = "" then "UNKNOWN" else td.album.getD "") ∧
          tr.genre = (if td.genre.getD "" = "" then "UNKNOWN" else td.genre.getD "") ∧
          (td.title.getD "" = "" → ∃ st, e.stem = some st ∧ tr.title = st) ∧
          (¬ td.title.getD "" = "" → tr.title = td.title.getD "")) ∧
       (¬ tr.title = "" ∧ ¬ tr.artist = "" ∧ ¬ tr.album = "" ∧ ¬ tr.genre = "")) := by
  intro cfg old probe e x mt m sz tr b hstem hf hext hcls hmeta hmiss hres
  unfold processEntry at hres
  rw [hf] at hres
  simp only [Bool.true_eq_false, if_false, hext, hcls, hmeta, hmiss] at hres
  by_cases hpl : mt = "playlist"
  · rw [if_pos hpl] at hres
    simp only [Prod.mk.injEq] at hres
    obtain ⟨hft, hb⟩ := hres
    obtain ⟨-, -, -, -, har, hal, hge, htit⟩ := finishTrack_fields hft
    rw [if_neg (by decide)] at har
    rw [if_neg (by decide)] at hal
    rw [if_neg (by decide)] at hge
    have hps : ∃ st, e.stem = some st ∧ tr.title = st := by
      rcases htit with ⟨hti0, st, hst, htr⟩ | ⟨hne, htr⟩
      · exact ⟨st, hst, htr⟩
      · cases hstm : e.stem with
        | none =>
          rw [hstm] at hne
          exact absurd rfl hne
        | some st =>
          rw [hstm] at htr
          exact ⟨st, rfl, htr⟩
    obtain ⟨st, hst, htr⟩ := hps
    refine ⟨fun _ => ⟨hb.symm, st, hst, htr, har, hal, hge⟩,
      fun h => absurd hpl h, fun h => absurd hpl h, fun td h => absurd hpl h, ?_, ?_, ?_, ?_⟩
    · rw [htr]
      exact hstem st hst
    · rw [har]; decide
    · rw [hal]; decide
    · rw [hge]; decide
  · rw [if_neg hpl] at hres
    cases hpr : probe e.path with
    | some td =>
      rw [hpr] at hres
      simp only [Prod.mk.injEq] at hres
      obtain ⟨hft, hb⟩ := hres
      obtain ⟨-, -, -, -, har, hal, hge, htit⟩ := finishTrack_fields hft
      have htne : ¬ tr.title = "" := by
        rcases htit with ⟨-, st, hst, htr⟩ | ⟨hne, htr⟩
        · rw [htr]
          exact hstem st hst
        · rw [htr]
          exact hne
      have htdfacts : ∀ td', some td = some td' →
          tr.artist = (if td'.artist.getD "" = "" then "UNKNOWN" else td'.artist.getD "") ∧
          tr.album = (if td'.album.getD "" = "" then "UNKNOWN" else td'.album.getD "") ∧
          tr.genre = (if td'.genre.getD "" = "" then "UNKNOWN" else td'.genre.getD "") ∧
          (td'.title.getD "" = "" → ∃ st, e.stem = some st ∧ tr.title = st) ∧
          (¬ td'.title.getD "" = "" → tr.title = td'.title.getD "") := by
        intro td' hsome
        obtain rfl : td = td' := Option.some.inj hsome
        refine ⟨har, hal, hge, ?_, ?_⟩
        · intro h0
          rcases htit with ⟨-, st, hst, htr⟩ | ⟨hne, -⟩
          · exact ⟨st, hst, htr⟩
          · exact absurd h0 hne
        · intro hn0
          rcases htit with ⟨h0, -⟩ | ⟨-, htr⟩
          · exact absurd h0 hn0
          · exact htr
      refine ⟨fun h => absurd h hpl, fun _ => hb.symm,
        fun _ hnone => absurd hnone (by simp), fun td' _ => htdfacts td', htne, ?_, ?_, ?_⟩
      · rw [har]
        exact ite_empty_ne_empty _
      · rw [hal]
        exact ite_empty_ne_empty _
      · rw [hge]
        exact ite_empty_ne_empty _
    | none =>
      rw [hpr] at hres
      simp only [Prod.mk.injEq] at hres
      obtain ⟨hft, hb⟩ := hres
      obtain ⟨-, -, -, -, har, hal, hge, htit⟩ := finishTrack_fields hft
      rw [if_pos rfl] at har
      rw [if_pos rfl] at hal
      rw [if_pos rfl] at hge
      have hps : ∃ st, e.stem = some st ∧ tr.title = st := by
        rcases htit with ⟨-, st, hst, htr⟩ | ⟨hne, -⟩
        · exact ⟨st, hst, htr⟩
        · exact absurd rfl hne
      obtain ⟨st, hst, htr⟩ := hps
      refine ⟨fun h => absurd h hpl, fun _ => hb.symm,
        fun _ _ => ⟨har, hal, hge, st, hst, htr⟩,
        fun td _ hsome => absurd hsome (by simp), ?_, ?_, ?_, ?_⟩
      · rw [htr]
        exact hstem st hst
      · rw [har]; decide
      · rw [hal]; decide
      · rw [hge]; decide

/-- C7 witness: a fresh untagged audio file is emitted with stem title
and `UNKNOWN` sentinels, with the probe invoked. -/
theorem c7_witness :
    ¬ trackFresh.title = "" ∧ ¬ trackFresh.artist = "" ∧ ¬ trackFresh.album = "" ∧
    ¬ trackFresh.genre = "" :=
  (c7_fresh_track_fields cfgMp3 [] probeNone entryFresh "mp3" "audio" 5 6 trackFresh true
    (by decide) (by decide) (by decide) (by decide) (by decide) (by decide) (by decide)).2.2.2.2

/-- C4 counterexample: the filter value `rock,` carries exactly one
requested term, yet the exact pass is skipped because the raw value
contains a comma. -/
theorem c4_counterexample :
    specTermsOf "rock," = ["rock"] ∧
    qRockComma.genre = some "rock," ∧ qRockComma.artist = none ∧ qRockComma.album = none ∧
    (resolveQuery [] qRockComma selectAbort).exactAttempted = false := by
  decide

/-- C4 amended: the exact pass is attempted iff none of the raw
genre/artist/album filter values contains a comma character (the
multi-value test is textual, not a count of parsed terms). -/
theorem c4_exact_pass_comma_gate :
    ∀ (tracks : List Track) (args : Args) (sel : List String → Option String),
      ((resolveQuery tracks args sel).exactAttempted = true ↔
        (optContainsComma args.genre = false ∧ optContainsComma args.artist = false ∧
         optContainsComma args.album = false)) := by
  intro tracks args sel
  rw [resolveQuery_exactAttempted]
  unfold isMultiValueSearch
  cases h1 : optContainsComma args.artist <;> cases h2 : optContainsComma args.genre <;>
    cases h3 : optContainsComma args.album <;> simp

/-- C5 counterexample: clarification is invoked (and an abort
propagates) on a query in which two field categories, artist and
genre, are active — not exactly one. -/
theorem c5_counterexample :
    qTwoActive.artist.isSome = true ∧ qTwoActive.genre.isSome = true ∧
    (resolveQuery [trackAdo, trackAdoration] qTwoActive selectAbort).selectionInvoked = true ∧
    (resolveQuery [trackAdo, trackAdoration] qTwoActive selectAbort).outcome =
      Outcome.aborted := by
  decide

/-- C5 amended: the selection capability is invoked iff the query is
non-multi, the exact pass (always attempted then) found nothing, the
partial pass found something, at least one of artist/genre/album is
active (the clarified category being the first active one in the order
artist, genre, album), and the partial set spans more than one distinct
value of that category; an aborted selection resolves the whole query
to aborted, a successful selection re-runs the exact pass restricted to
the clarified value, and otherwise the partial set is returned
directly. -/
theorem c5_clarification_flow :
    (∀ (tracks : List Track) (args : Args) (sel : List String → Option String),
      (resolveQuery tracks args sel).selectionInvoked = true ↔
        (isMultiValueSearch args = false ∧ applyCliFilters tracks args true = [] ∧
         ¬ applyCliFilters tracks args false = [] ∧ ¬ activeKey args = "" ∧
         1 < (uniqueOptions (activeKey args) (applyCliFilters tracks args false)).length)) ∧
    (∀ (tracks : List Track) (args : Args) (sel : List String → Option String),
      isMultiValueSearch args = false →
      applyCliFilters tracks args true = [] →
      ¬ applyCliFilters tracks args false = [] →
      ¬ activeKey args = "" →
      1 < (uniqueOptions (activeKey args) (applyCliFilters tracks args false)).length →
      ((sel (sortStrs (uniqueOptions (activeKey args) (applyCliFilters tracks args false))) =
          none →
        (resolveQuery tracks args sel).outcome = Outcome.aborted) ∧
       (∀ v,
        sel (sortStrs (uniqueOptions (activeKey args) (applyCliFilters tracks args false))) =
          some v →
        (resolveQuery tracks args sel).outcome =
          (if applyCliFilters tracks (setKey args (activeKey args) v) true = []
           then Outcome.noMatch
           else Outcome.results (applyCliFilters tracks (setKey args (activeKey args) v) true))))) ∧
    (∀ (tracks : List Track) (args : Args) (sel : List String → Option String),
      (isMultiValueSearch args = true ∨ applyCliFilters tracks args true = []) →
      ¬ applyCliFilters tracks args false = [] →
      ¬ (1 < (uniqueOptions (activeKey args) (applyCliFilters tracks args false)).length ∧
         ¬ activeKey args = "" ∧ isMultiValueSearch args = false) →
      (resolveQuery tracks args sel).outcome =
        Outcome.results (applyCliFilters tracks args false) ∧
      (resolveQuery tracks args sel).selectionInvoked = false) ∧
    (∀ args : Args, args.artist.isSome = true → activeKey args = "artist") := by
  refine ⟨resolveQuery_selectionInvoked_iff, ?_, ?_, ?_⟩
  · intro tracks args sel hm he hp hk hc
    constructor
    · intro hnone
      rw [resolveQuery_clarify tracks args sel hm he hp hk hc, hnone]
    · intro v hv
      rw [resolveQuery_clarify tracks args sel hm he hp hk hc, hv]
  · intro tracks args sel hstage2 hp hnoclar
    rw [resolveQuery_direct tracks args sel hstage2 hp hnoclar]
    exact ⟨rfl, rfl⟩
  · intro args h
    unfold activeKey
    rw [if_pos h]

/-- C5 witness: the ambiguous single-category `ad` artist query invokes
clarification and an aborted selection aborts the query. -/
theorem c5_witness :
    (resolveQuery [trackAdo, trackAdoration] qAdo selectAbort).outcome = Outcome.aborted :=
  (c5_clarification_flow.2.1 [trackAdo, trackAdoration] qAdo selectAbort (by decide) (by decide)
    (by decide) (by decide) (by decide)).1 (by decide)

end MpvMusic
